import Mathlib

/-!
# Theros: request parser, URI parser, percent-coding and router

A shallow embedding of `Theros/src/RequestParser.cpp`,
`Theros/src/utilities/Url.cpp`, `Theros/src/Router.h` and
`Summer/src/Router.cpp`.

* A byte (`char`) is a `Char`; a `std::string` is a `List Char`.
* Member functions that mutate the parser, the router or their reference
  arguments take the old values and return the new ones; the static handler
  counter is passed in and returned.
* `assert` failures and undefined behaviour are explicit `Fault`s.
* Router.h and Router.cpp define `Router::handle`, `get`, `post`, `put` and
  `use` with different signatures; the former are in namespace `Theros`, the
  latter in namespace `Summer`, as in the source.
-/

namespace Theros

/-! ## Character classes -/

/-- Modelled from the spec: `is_char` of RequestParser.h (not in src), the
RFC 2616 `CHAR` class (octets 0 to 127) from which "token byte" is built. -/
def is_char (c : Char) : Bool := decide (c.toNat ≤ 127)

/-- Modelled from the spec: `is_alpha` of RequestParser.h (not in src), the
"letter" of the URI parser's transitions: an ASCII letter. -/
def is_alpha (c : Char) : Bool :=
  decide (65 ≤ c.toNat ∧ c.toNat ≤ 90) || decide (97 ≤ c.toNat ∧ c.toNat ≤ 122)

/-- Modelled from the spec: `is_digit` of RequestParser.h (not in src), the
"digit" of the port and version transitions: an ASCII decimal digit. -/
def is_digit (c : Char) : Bool := decide (48 ≤ c.toNat ∧ c.toNat ≤ 57)

/-- Modelled from the spec: `is_ctl` of RequestParser.h (not in src), the
RFC 2616 `CTL` class: octets 0 to 31 and DEL (127). -/
def is_ctl (c : Char) : Bool := decide (c.toNat ≤ 31) || decide (c.toNat = 127)

/-- Modelled from the spec: `is_cr` of RequestParser.h (not in src): the
carriage return of "CRLF". -/
def is_cr (c : Char) : Bool := c == '\r'

/-- Modelled from the spec: `is_lf` of RequestParser.h (not in src): the
line feed of "CRLF". -/
def is_lf (c : Char) : Bool := c == '\n'

/-- Modelled from the spec: `is_sp` of RequestParser.h (not in src): the
"space" that ends the method and the URI. -/
def is_sp (c : Char) : Bool := c == ' '

/-- Modelled from the spec: `is_ht` of RequestParser.h (not in src): the
"tab" of a header continuation. -/
def is_ht (c : Char) : Bool := c == '\t'

/-- Modelled from the spec: the RFC 2616 separators, which RequestParser.h
(not in src) excludes from "token byte":
`( ) < > @ , ; : \ " / [ ] ? = { } SP HT`. -/
def is_separator (c : Char) : Bool :=
  [ '(', ')', '<', '>', '@', ',', ';', ':', Char.ofNat 92, Char.ofNat 34, '/',
    '[', ']', '?', '=', Char.ofNat 123, Char.ofNat 125, ' ', '\t' ].any (fun b => c == b)

/-- Modelled from the spec: `is_token` of RequestParser.h (not in src), the
"token byte": a `CHAR` that is neither a `CTL` nor a separator. -/
def is_token (c : Char) : Bool := is_char c && !is_ctl c && !is_separator c

/-! ## Url.cpp -/

/-- The array `unreserved_charset[]`. As a C array initialised from a string
literal it ends with the terminating NUL, which `std::begin`/`std::end`
include. -/
def unreserved_charset : List Char :=
  "ABCDEFGHIJKLMNOPQRSTUVWXYZabcdefghijklmnopqrstuvwxyz0123456789-_.~".toList
    ++ [Char.ofNat 0]

/-- The array `uri_charset[]`, terminating NUL included. -/
def uri_charset : List Char :=
  ("ABCDEFGHIJKLMNOPQRSTUVWXYZabcdefghijklmn" ++
   "opqrstuvwxyz0123456789-_.~!*'();:@&=+$,/" ++
   "?#[]").toList ++ [Char.ofNat 0]

/-- `is_uri_unreserved`: linear search of `unreserved_charset`. -/
def is_uri_unreserved (c : Char) : Bool := unreserved_charset.any (fun b => c == b)

/-- `is_uri`: linear search of `uri_charset`. -/
def is_uri (c : Char) : Bool := uri_charset.any (fun b => c == b)

/-- One upper-case hexadecimal digit, for a value below 16. -/
def hex_upper (d : Nat) : Char :=
  if d < 10 then Char.ofNat (48 + d) else Char.ofNat (55 + d)

/-- `ctohex`: `os << std::hex << std::uppercase << c`, the upper-case
hexadecimal numeral of `c` with no padding. -/
def ctohex (c : Nat) : List Char :=
  if _h : c < 16 then [hex_upper c] else ctohex (c / 16) ++ [hex_upper (c % 16)]
termination_by c
decreasing_by omega

/-- `urlencode`: unreserved bytes are copied, any other byte becomes `%`
followed by `ctohex` of its value as an `unsigned char`. -/
def urlencode (url : List Char) : List Char :=
  url.foldl (fun encoded c =>
    if is_uri_unreserved c then encoded ++ [c]
    else encoded ++ ('%' :: ctohex (c.toNat % 256))) []

/-- The value of a hexadecimal digit as `sscanf("%x")` reads it. -/
def hex_value (c : Char) : Option Nat :=
  if 48 ≤ c.toNat ∧ c.toNat ≤ 57 then some (c.toNat - 48)
  else if 65 ≤ c.toNat ∧ c.toNat ≤ 70 then some (c.toNat - 55)
  else if 97 ≤ c.toNat ∧ c.toNat ≤ 102 then some (c.toNat - 87)
  else none

/-- White space as `isspace` knows it in the C locale: space, `\t`, `\n`,
`\v`, `\f` and `\r`. -/
def isspace (c : Char) : Bool := c == ' ' || decide (9 ≤ c.toNat ∧ c.toNat ≤ 13)

/-- `sscanf(hexhex.c_str(), "%x", &cvt)` on the two bytes after a `%`: the
value stored into `cvt`, as the `unsigned int` that `%x` reads, or `none`
when nothing is stored (an input or matching failure) and `cvt` keeps the
value it had. `%x` skips leading white space, takes an optional sign and
then reads hexadecimal digits as far as they go:
* white space first: the second byte alone is read, one digit or nothing;
* `+` or `-` first: the second byte is the number, negated for `-`;
* two digits give their value, one digit followed by anything else gives
  that digit's value, except for `0x` and `0X`: that is the start of a number
  whose digits do not follow, a matching failure by the C standard
  (7.21.6.2);
* any other first byte, a NUL (the end of the C string) included, stores
  nothing.
A NUL, white space or a sign in second place is no digit and ends the
number. -/
def sscanf_hex (h1 h2 : Char) : Option Nat :=
  if isspace h1 then hex_value h2
  else if h1 = '+' then hex_value h2
  else if h1 = '-' then (hex_value h2).map (fun a => (4294967296 - a) % 4294967296)
  else
    match hex_value h1, hex_value h2 with
    | some a, some b => some (16 * a + b)
    | some a, none => if h1 = '0' ∧ (h2 = 'x' ∨ h2 = 'X') then none else some a
    | none, _ => none

/-- The loop of `urldecode` from a given value of the local `int cvt`, `none`
while it is uninitialised. Bytes other than `%` are copied; at a `%` the next
two bytes go through `sscanf_hex`, which stores into `cvt` or leaves it as it
was, and one byte of the value of `cvt` (`static_cast<unsigned char>`) is
appended, the iterator skipping both bytes. The result `none` is undefined
behaviour: a `%` with fewer than two bytes after it (the iterators leave the
string), or `cvt` read while still uninitialised. -/
def urldecode_loop : Option Nat → List Char → Option (List Char)
  | _, [] => some []
  | cvt, c :: rest =>
    if c ≠ '%' then (urldecode_loop cvt rest).map (fun decoded => c :: decoded)
    else
      match rest with
      | h1 :: h2 :: rest2 =>
        match (sscanf_hex h1 h2).or cvt with
        | some value =>
          (urldecode_loop (some value) rest2).map
            (fun decoded => Char.ofNat (value % 256) :: decoded)
        | none => none
      | _ => none

/-- `urldecode`: the loop run with `cvt` uninitialised; the empty string is
returned as it is. -/
def urldecode (url : List Char) : Option (List Char) := urldecode_loop none url

/-! ## Data model -/

/-- Modelled from the spec: `enum class RequestMethod` (Message.h, not in
src), in the order `Router::use` walks it: from `GET` up to, excluding,
`UNDETERMINED`. -/
inductive RequestMethod
  | GET | HEAD | POST | PUT | DELETE | CONNECT | OPTIONS | TRACE | PATCH | UNDETERMINED
  deriving DecidableEq, Repr

/-- Modelled from the spec: `enum class HttpVersion` (Message.h, not in src). -/
inductive HttpVersion
  | zero_nine | one_zero | one_one | two_zero
  deriving DecidableEq, Repr

/-- Modelled from the spec: `struct Uri` (Message.h, not in src); every field
is text. -/
structure Uri where
  scheme : List Char
  host : List Char
  port : List Char
  abs_path : List Char
  query : List Char
  fragment : List Char
  deriving DecidableEq, Repr

/-- Modelled from the spec: a header is a name/value pair (Message.h, not in
src). -/
structure Header where
  name : List Char
  value : List Char
  deriving DecidableEq, Repr

/-- Modelled from the spec: `struct Request` (Message.h, not in src). The
parameter maps that only the router fills are left out. -/
structure Request where
  method : RequestMethod
  version : HttpVersion
  uri : Uri
  headers : List Header
  deriving DecidableEq, Repr

/-- Modelled from the spec: `enum class ParseStatus` (RequestParser.h, not in
src). -/
inductive ParseStatus
  | accept | reject | in_progress
  deriving DecidableEq, Repr

/-- Modelled from the spec: `enum class ParserState` (RequestParser.h, not in
src), the states named by `consume(Request&, char)`. -/
inductive ParserState
  | req_start | req_start_lf | req_method | req_uri
  | req_http_h | req_http_ht | req_http_htt | req_http_http | req_http_slash
  | req_http_major | req_http_dot | req_http_minor
  | req_start_line_cr | req_start_line_lf
  | req_field_name_start | req_field_name | req_field_value
  | req_header_lf | req_header_lws | req_header_end
  deriving DecidableEq, Repr

/-- Modelled from the spec: `enum class UriState` (RequestParser.h, not in
src), the states named by `consume(Uri&, char)`. -/
inductive UriState
  | uri_start | uri_scheme | uri_slash | uri_slash_shash | uri_host | uri_port
  | uri_abs_path | uri_query | uri_fragment
  deriving DecidableEq, Repr

/-- The two data members of `class RequestParser`. -/
structure RequestParser where
  state_ : ParserState
  uri_state_ : UriState
  deriving DecidableEq, Repr

/-- How a call can fail to return: a failed `assert`, or undefined
behaviour. -/
inductive Fault
  | assertion_failed | undefined_behaviour
  deriving DecidableEq, Repr

/-- The empty `Uri`. -/
def Uri.empty : Uri := ⟨[], [], [], [], [], []⟩

/-- `RequestParser::RequestParser()`. -/
def RequestParser.init : RequestParser := ⟨ParserState.req_start, UriState.uri_start⟩

/-! ## RequestParser.cpp -/

/-- `RequestParser::uri_decode`: `urldecode` on scheme, host, abs_path, query
and fragment (not on port). -/
def RequestParser.uri_decode (uri : Uri) : Option Uri :=
  match urldecode uri.scheme, urldecode uri.host, urldecode uri.abs_path,
        urldecode uri.query, urldecode uri.fragment with
  | some s, some h, some a, some q, some f =>
    some { uri with scheme := s, host := h, abs_path := a, query := q, fragment := f }
  | _, _, _, _, _ => none

/-- `RequestParser::consume(Uri&, char)`. -/
def RequestParser.consume_uri (p : RequestParser) (uri : Uri) (c : Char) :
    ParseStatus × RequestParser × Uri :=
  match p.uri_state_ with
  | UriState.uri_start =>
    if c = '/' then
      (ParseStatus.in_progress, { p with uri_state_ := UriState.uri_abs_path },
        { uri with abs_path := uri.abs_path ++ [c] })
    else if is_alpha c then
      (ParseStatus.in_progress, { p with uri_state_ := UriState.uri_scheme },
        { uri with scheme := uri.scheme ++ [c] })
    else (ParseStatus.reject, p, uri)
  | UriState.uri_scheme =>
    if is_alpha c then
      (ParseStatus.in_progress, p, { uri with scheme := uri.scheme ++ [c] })
    else if c = ':' then
      (ParseStatus.in_progress, { p with uri_state_ := UriState.uri_slash }, uri)
    else (ParseStatus.reject, p, uri)
  | UriState.uri_slash =>
    if c = '/' then
      (ParseStatus.in_progress, { p with uri_state_ := UriState.uri_slash_shash }, uri)
    else (ParseStatus.reject, p, uri)
  | UriState.uri_slash_shash =>
    if c = '/' then
      (ParseStatus.in_progress, { p with uri_state_ := UriState.uri_host }, uri)
    else (ParseStatus.reject, p, uri)
  | UriState.uri_host =>
    if c = '/' then
      (ParseStatus.in_progress, { p with uri_state_ := UriState.uri_abs_path }, uri)
    else if c = ':' then
      (ParseStatus.in_progress, { p with uri_state_ := UriState.uri_port }, uri)
    else (ParseStatus.in_progress, p, { uri with host := uri.host ++ [c] })
  | UriState.uri_port =>
    if is_digit c then
      (ParseStatus.in_progress, p, { uri with port := uri.port ++ [c] })
    else if c = '/' then
      (ParseStatus.in_progress, { p with uri_state_ := UriState.uri_abs_path }, uri)
    else (ParseStatus.reject, p, uri)
  | UriState.uri_abs_path =>
    if c = '?' then
      (ParseStatus.in_progress, { p with uri_state_ := UriState.uri_query }, uri)
    else if c = '#' then
      (ParseStatus.in_progress, { p with uri_state_ := UriState.uri_fragment }, uri)
    else (ParseStatus.in_progress, p, { uri with abs_path := uri.abs_path ++ [c] })
  | UriState.uri_query =>
    if c = '#' then
      (ParseStatus.in_progress, { p with uri_state_ := UriState.uri_fragment }, uri)
    else (ParseStatus.in_progress, p, { uri with query := uri.query ++ [c] })
  | UriState.uri_fragment =>
    (ParseStatus.in_progress, p, { uri with fragment := uri.fragment ++ [c] })

/-- `RequestParser::set_version`; `major` and `minor` are digit values. -/
def RequestParser.set_version (req : Request) (major minor : Nat) : Request :=
  let req := if major = 0 ∧ minor = 9 then { req with version := HttpVersion.zero_nine } else req
  let req := if major = 1 ∧ minor = 0 then { req with version := HttpVersion.one_zero } else req
  let req := if major = 1 ∧ minor = 1 then { req with version := HttpVersion.one_one } else req
  let req := if major = 2 ∧ minor = 0 then { req with version := HttpVersion.two_zero } else req
  req

/-- Applies `f` to the last element: `v.back()` used as an lvalue. -/
def modify_back {α : Type} (f : α → α) : List α → List α
  | [] => []
  | [x] => [f x]
  | x :: y :: rest => x :: modify_back f (y :: rest)

/-- `RequestParser::build_header_name`. -/
def RequestParser.build_header_name (req : Request) (c : Char) : Except Fault Request :=
  if req.headers.length = 0 then Except.error Fault.assertion_failed
  else Except.ok { req with
    headers := modify_back (fun h => { h with name := h.name ++ [c] }) req.headers }

/-- `RequestParser::build_header_value`. -/
def RequestParser.build_header_value (req : Request) (c : Char) : Except Fault Request :=
  if req.headers.length = 0 then Except.error Fault.assertion_failed
  else Except.ok { req with
    headers := modify_back (fun h => { h with value := h.value ++ [c] }) req.headers }

/-- `request.headers.emplace_back()`: a header with empty name and value. -/
def emplace_back_header (req : Request) : Request :=
  { req with headers := req.headers ++ [⟨[], []⟩] }

/-- The body of `case s::req_field_name:`, which `case
s::req_field_name_start:` falls through to. -/
def RequestParser.case_req_field_name (p : RequestParser) (request : Request) (c : Char) :
    Except Fault (ParseStatus × RequestParser × Request) :=
  if is_token c then
    match RequestParser.build_header_name request c with
    | Except.ok request => Except.ok (ParseStatus.in_progress, p, request)
    | Except.error e => Except.error e
  else if c = ':' then
    Except.ok (ParseStatus.in_progress, { p with state_ := ParserState.req_field_value }, request)
  else Except.ok (ParseStatus.reject, p, request)

/-- The `emplace_back(); build_header_name(request, c); state_ =
s::req_field_name` sequence of the two header-start states. -/
def RequestParser.start_header (p : RequestParser) (request : Request) (c : Char) :
    Except Fault (ParseStatus × RequestParser × Request) :=
  match RequestParser.build_header_name (emplace_back_header request) c with
  | Except.ok request =>
    Except.ok (ParseStatus.in_progress, { p with state_ := ParserState.req_field_name }, request)
  | Except.error e => Except.error e

/-- The states that expect one fixed byte and move on: `if (c == x)
{ state_ = next; return in_progress; } return reject;`. -/
def RequestParser.expect (p : RequestParser) (request : Request) (ok : Bool)
    (next : ParserState) : Except Fault (ParseStatus × RequestParser × Request) :=
  if ok then Except.ok (ParseStatus.in_progress, { p with state_ := next }, request)
  else Except.ok (ParseStatus.reject, p, request)

/-- `RequestParser::consume(Request&, char)`. The locals `version_major` and
`version_minor` are initialised to 1 and 0 on every call. -/
def RequestParser.consume (p : RequestParser) (request : Request) (c : Char) :
    Except Fault (ParseStatus × RequestParser × Request) :=
  let version_major : Nat := 1
  match p.state_ with
  | ParserState.req_start =>
    if is_cr c then
      Except.ok (ParseStatus.in_progress, { p with state_ := ParserState.req_start_lf }, request)
    else if is_token c then
      let next : RequestParser := { p with state_ := ParserState.req_method }
      if c = 'G' then
        Except.ok (ParseStatus.in_progress, next, { request with method := RequestMethod.GET })
      else if c = 'H' then
        Except.ok (ParseStatus.in_progress, next, { request with method := RequestMethod.HEAD })
      else if c = 'P' then
        Except.ok (ParseStatus.in_progress, next,
          { request with method := RequestMethod.UNDETERMINED })
      else if c = 'D' then
        Except.ok (ParseStatus.in_progress, next, { request with method := RequestMethod.DELETE })
      else if c = 'C' then
        Except.ok (ParseStatus.in_progress, next, { request with method := RequestMethod.CONNECT })
      else if c = 'O' then
        Except.ok (ParseStatus.in_progress, next, { request with method := RequestMethod.OPTIONS })
      else if c = 'T' then
        Except.ok (ParseStatus.in_progress, next, { request with method := RequestMethod.TRACE })
      else Except.ok (ParseStatus.reject, p, request)
    else Except.ok (ParseStatus.reject, p, request)
  | ParserState.req_start_lf =>
    RequestParser.expect p request (is_lf c) ParserState.req_start
  | ParserState.req_method =>
    if is_token c then
      if request.method = RequestMethod.UNDETERMINED then
        if c = 'O' then
          Except.ok (ParseStatus.in_progress, p, { request with method := RequestMethod.POST })
        else if c = 'U' then
          Except.ok (ParseStatus.in_progress, p, { request with method := RequestMethod.PUT })
        else if c = 'A' then
          Except.ok (ParseStatus.in_progress, p, { request with method := RequestMethod.PATCH })
        else Except.ok (ParseStatus.reject, p, request)
      else Except.ok (ParseStatus.in_progress, p, request)
    else if is_sp c then
      Except.ok (ParseStatus.in_progress, { p with state_ := ParserState.req_uri }, request)
    else Except.ok (ParseStatus.reject, p, request)
  | ParserState.req_uri =>
    if request.method = RequestMethod.UNDETERMINED then Except.error Fault.assertion_failed
    else if is_uri c then
      match RequestParser.consume_uri p request.uri c with
      | (status, p, uri) => Except.ok (status, p, { request with uri := uri })
    else if is_sp c then
      match RequestParser.uri_decode request.uri with
      | some uri =>
        Except.ok (ParseStatus.in_progress, { p with state_ := ParserState.req_http_h },
          { request with uri := uri })
      | none => Except.error Fault.undefined_behaviour
    else Except.ok (ParseStatus.reject, p, request)
  | ParserState.req_http_h =>
    RequestParser.expect p request (c = 'H') ParserState.req_http_ht
  | ParserState.req_http_ht =>
    RequestParser.expect p request (c = 'T') ParserState.req_http_htt
  | ParserState.req_http_htt =>
    RequestParser.expect p request (c = 'T') ParserState.req_http_http
  | ParserState.req_http_http =>
    RequestParser.expect p request (c = 'P') ParserState.req_http_slash
  | ParserState.req_http_slash =>
    RequestParser.expect p request (c = '/') ParserState.req_http_major
  | ParserState.req_http_major =>
    -- `version_major = c - '0'` is written to the local and lost on return
    RequestParser.expect p request (is_digit c) ParserState.req_http_dot
  | ParserState.req_http_dot =>
    RequestParser.expect p request (c = '.') ParserState.req_http_minor
  | ParserState.req_http_minor =>
    if is_digit c then
      let version_minor : Nat := c.toNat - 48
      Except.ok (ParseStatus.in_progress, { p with state_ := ParserState.req_start_line_cr },
        RequestParser.set_version request version_major version_minor)
    else Except.ok (ParseStatus.reject, p, request)
  | ParserState.req_start_line_cr =>
    RequestParser.expect p request (is_cr c) ParserState.req_start_line_lf
  | ParserState.req_start_line_lf =>
    RequestParser.expect p request (is_lf c) ParserState.req_field_name_start
  | ParserState.req_field_name_start =>
    if is_cr c then
      Except.ok (ParseStatus.in_progress, { p with state_ := ParserState.req_header_end }, request)
    else if is_token c then RequestParser.start_header p request c
    else RequestParser.case_req_field_name p request c
  | ParserState.req_field_name => RequestParser.case_req_field_name p request c
  | ParserState.req_field_value =>
    if is_sp c || is_ht c then Except.ok (ParseStatus.in_progress, p, request)
    else if is_cr c then
      Except.ok (ParseStatus.in_progress, { p with state_ := ParserState.req_header_lf }, request)
    else if !is_ctl c then
      match RequestParser.build_header_value request c with
      | Except.ok request => Except.ok (ParseStatus.in_progress, p, request)
      | Except.error e => Except.error e
    else Except.ok (ParseStatus.reject, p, request)
  | ParserState.req_header_lf =>
    RequestParser.expect p request (is_lf c) ParserState.req_header_lws
  | ParserState.req_header_lws =>
    if is_sp c || is_ht c then
      Except.ok (ParseStatus.in_progress, { p with state_ := ParserState.req_field_value }, request)
    else if is_cr c then
      Except.ok (ParseStatus.in_progress, { p with state_ := ParserState.req_header_end }, request)
    else if is_token c then RequestParser.start_header p request c
    else Except.ok (ParseStatus.reject, p, request)
  | ParserState.req_header_end =>
    if is_lf c then Except.ok (ParseStatus.accept, p, request)
    else Except.ok (ParseStatus.reject, p, request)

/-- Feeds the bytes in order to `consume(Uri&, char)`, one call per byte, and
keeps the status of every call in call order. It does not stop at a reject,
so that the status of each call can be read off. -/
def feed_uri (p : RequestParser) (uri : Uri) :
    List Char → List ParseStatus × RequestParser × Uri
  | [] => ([], p, uri)
  | c :: cs =>
    match RequestParser.consume_uri p uri c with
    | (status, p1, uri1) =>
      match feed_uri p1 uri1 cs with
      | (statuses, p2, uri2) => (status :: statuses, p2, uri2)

/-- Feeds the bytes in order to `consume(Request&, char)`, one call per byte,
and keeps the status of every call in call order. It does not stop at an
accept or a reject, so that the status of each call can be read off; a fault
ends the run. -/
def feed (p : RequestParser) (request : Request) :
    List Char → Except Fault (List ParseStatus × RequestParser × Request)
  | [] => Except.ok ([], p, request)
  | c :: cs =>
    match RequestParser.consume p request c with
    | Except.error e => Except.error e
    | Except.ok (status, p1, request1) =>
      match feed p1 request1 cs with
      | Except.error e => Except.error e
      | Except.ok (statuses, p2, request2) => Except.ok (status :: statuses, p2, request2)

/-! ## Trie.h -/

/-- Modelled from the spec: `Trie<T>` of Trie.h (not in src), the prefix tree
indexed by path character in which each node holds zero or one value.
`absent` is a subtree that does not exist; `node value children` is a node
with the value it holds, if any, and the subtree under each character. -/
inductive Trie (α : Type) where
  | absent : Trie α
  | node (value : Option α) (children : Char → Trie α) : Trie α

/-- Modelled from the spec: the default-constructed `Trie` (Trie.h, not in
src): the root alone, holding no value. -/
def Trie.empty {α : Type} : Trie α := Trie.node none (fun _ => Trie.absent)

/-- Modelled from the spec: `Trie::insert({path, value})` (Trie.h, not in
src): walk or create the node of each character of the path and store the
value at the terminal node; a value stored there before is overwritten. -/
def Trie.insert {α : Type} : Trie α → List Char → α → Trie α
  | Trie.absent, [], v => Trie.node (some v) (fun _ => Trie.absent)
  | Trie.node _ children, [], v => Trie.node (some v) children
  | Trie.absent, c :: cs, v =>
    Trie.node none (fun d => if d = c then Trie.insert Trie.absent cs v else Trie.absent)
  | Trie.node value children, c :: cs, v =>
    Trie.node value (fun d => if d = c then Trie.insert (children c) cs v else children d)

/-- Modelled from the spec: an iterator of `Trie` (Trie.h, not in src).
`none` is `end()`. Otherwise it points to a node, and is what that node holds
together with what the parent links lead to: what each ancestor holds, parent
first and root last. -/
abbrev TrieIterator (α : Type) := Option (Option α × List (Option α))

/-- Modelled from the spec: `Trie::end()` (Trie.h, not in src). -/
def Trie.end_ {α : Type} : TrieIterator α := none

/-- Modelled from the spec: the walk of `Trie::find` (Trie.h, not in src)
from a node down the rest of the path; `up` holds what the nodes already
passed hold, nearest first. The result is `end()` when a node of the path
does not exist or the terminal node holds no value. -/
def Trie.find_from {α : Type} : Trie α → List Char → List (Option α) → TrieIterator α
  | Trie.absent, _, _ => none
  | Trie.node value _, [], up => value.map (fun v => (some v, up))
  | Trie.node value children, c :: cs, up => Trie.find_from (children c) cs (value :: up)

/-- Modelled from the spec: `Trie::find(path)` (Trie.h, not in src): the node
exactly matching the path, or `end()`. -/
def Trie.find {α : Type} (t : Trie α) (path : List Char) : TrieIterator α :=
  t.find_from path []

/-- Modelled from the spec: `operator*` of the iterator (Trie.h, not in src)
at a node: the value the node holds. A node that holds none yields a
default-constructed `T`, here `default_value`; for `Handler` that is
`Handler()`, which `operator bool` tells from a registered handler. -/
def TrieIterator.deref {α : Type} (default_value : α)
    (node : Option α × List (Option α)) : α :=
  node.1.getD default_value

/-- Modelled from the spec: `operator--` of the iterator (Trie.h, not in
src), the step of the backward parent-pointer walk: from a node to its
parent, whether or not the parent holds a value, and from the root to
`end()`. -/
def TrieIterator.decrement {α : Type} : TrieIterator α → TrieIterator α
  | none => none
  | some (_, []) => none
  | some (_, parent :: up) => some (parent, up)

/-! ## Router.h -/

/-- A callable bound into a `Handler` (`std::function<void(Context &)>`),
known by a label only. -/
abbrev Callable := Nat

/-- The largest value of the 32-bit `int` that counts the handlers. -/
def INT_MAX : Int := 2147483647

/-- `class Handler`: the wrapped callables and the identity. -/
structure Handler where
  handler_ : List Callable
  handler_id_ : Option Int
  deriving DecidableEq, Repr

/-- The default constructor `explicit Handler() {}`: no callable, and
`handler_id_` is left uninitialised, which is `none` here and stays so in
every copy. The static counter is not touched. -/
def Handler.default_ : Handler := ⟨[], none⟩

/-- A constructor call `Handler(fs...)`. With an empty pack overload
resolution selects the non-template `explicit Handler() {}`. With callables
it selects `template <typename... Fs> explicit Handler(Fs... fs) :
handler_id_(++handler_id_counter)`, which wraps them in order. The static
`handler_id_counter` is passed in and its new value returned; incrementing an
`int` that holds `INT_MAX` is undefined behaviour. -/
def Handler.construct (handler_id_counter : Int) (fs : List Callable) :
    Except Fault (Int × Handler) :=
  match fs with
  | [] => Except.ok (handler_id_counter, Handler.default_)
  | _ :: _ =>
    if handler_id_counter < INT_MAX then
      Except.ok (handler_id_counter + 1, ⟨fs, some (handler_id_counter + 1)⟩)
    else Except.error Fault.undefined_behaviour

/-- `Handler::id`; reading an uninitialised `handler_id_` is undefined
behaviour. -/
def Handler.id (h : Handler) : Except Fault Int :=
  match h.handler_id_ with
  | some id => Except.ok id
  | none => Except.error Fault.undefined_behaviour

/-- `Handler::operator bool`: whether there is a callable. -/
def Handler.operator_bool (h : Handler) : Bool := h.handler_.length != 0

/-- `operator<` on handlers: `lhs.handler_id_ < rhs.handler_id_`. -/
def Handler.operator_lt (lhs rhs : Handler) : Except Fault Bool :=
  match lhs.handler_id_, rhs.handler_id_ with
  | some a, some b => Except.ok (decide (a < b))
  | _, _ => Except.error Fault.undefined_behaviour

/-- `operator==` on handlers: `!(rhs < lhs) && !(lhs < rhs)`. -/
def Handler.operator_eq (rhs lhs : Handler) : Except Fault Bool :=
  match Handler.operator_lt rhs lhs with
  | Except.error e => Except.error e
  | Except.ok true => Except.ok false
  | Except.ok false =>
    match Handler.operator_lt lhs rhs with
    | Except.error e => Except.error e
    | Except.ok b => Except.ok (!b)

/-- `operator!=` on handlers: `(rhs < lhs) || (lhs < rhs)`. -/
def Handler.operator_ne (rhs lhs : Handler) : Except Fault Bool :=
  match Handler.operator_lt rhs lhs with
  | Except.error e => Except.error e
  | Except.ok true => Except.ok true
  | Except.ok false => Handler.operator_lt lhs rhs

/-- Modelled from the spec: `to_underlying_t` (Utils.h, not in src) on
`RequestMethod`: the position of the enumerator, `GET` first and
`UNDETERMINED` last, as the loop of `Router::use` needs. -/
def to_underlying_t : RequestMethod → Nat
  | RequestMethod.GET => 0
  | RequestMethod.HEAD => 1
  | RequestMethod.POST => 2
  | RequestMethod.PUT => 3
  | RequestMethod.DELETE => 4
  | RequestMethod.CONNECT => 5
  | RequestMethod.OPTIONS => 6
  | RequestMethod.TRACE => 7
  | RequestMethod.PATCH => 8
  | RequestMethod.UNDETERMINED => 9

/-- Modelled from the spec: `static_cast<RequestMethod>(i)` for the values
the loop of `Router::use` passes, the inverse of `to_underlying_t`. -/
def RequestMethod.of_underlying : Nat → RequestMethod
  | 0 => RequestMethod.GET
  | 1 => RequestMethod.HEAD
  | 2 => RequestMethod.POST
  | 3 => RequestMethod.PUT
  | 4 => RequestMethod.DELETE
  | 5 => RequestMethod.CONNECT
  | 6 => RequestMethod.OPTIONS
  | 7 => RequestMethod.TRACE
  | 8 => RequestMethod.PATCH
  | _ => RequestMethod.UNDETERMINED

/-- `class Router`: the vector `routing_tables` of one `Trie<Handler>` per
index. -/
structure Router where
  routing_tables : List (Trie Handler)

/-- `Router::Router() : routing_tables(method_count)`. The constant
`method_count` is not in src and is a parameter. -/
def Router.init (method_count : Nat) : Router := ⟨List.replicate method_count Trie.empty⟩

/-- The values of `i` in `for (auto i = to_underlying_t(GET); i !=
to_underlying_t(UNDETERMINED); ++i)`. -/
def use_indices : List Nat :=
  List.range' (to_underlying_t RequestMethod.GET)
    (to_underlying_t RequestMethod.UNDETERMINED - to_underlying_t RequestMethod.GET)

/-- `template <typename... Fs> Router::handle(method, path, fs...)` of
Router.h: take the table of the method, build `Handler(fs...)` (the default
constructor when the pack is empty) and insert it at the path.
`routing_tables[i]` outside the vector is undefined behaviour. -/
def Router.handle (handler_id_counter : Int) (r : Router) (method : RequestMethod)
    (path : List Char) (fs : List Callable) : Except Fault (Int × Router) :=
  match r.routing_tables[to_underlying_t method]? with
  | none => Except.error Fault.undefined_behaviour
  | some t =>
    match Handler.construct handler_id_counter fs with
    | Except.error e => Except.error e
    | Except.ok (counter, h) =>
      Except.ok (counter, ⟨r.routing_tables.set (to_underlying_t method) (t.insert path h)⟩)

/-- `Router::get` of Router.h. -/
def Router.get (handler_id_counter : Int) (r : Router) (path : List Char)
    (fs : List Callable) : Except Fault (Int × Router) :=
  Router.handle handler_id_counter r RequestMethod.GET path fs

/-- `Router::post` of Router.h. -/
def Router.post (handler_id_counter : Int) (r : Router) (path : List Char)
    (fs : List Callable) : Except Fault (Int × Router) :=
  Router.handle handler_id_counter r RequestMethod.POST path fs

/-- `Router::put` of Router.h. -/
def Router.put (handler_id_counter : Int) (r : Router) (path : List Char)
    (fs : List Callable) : Except Fault (Int × Router) :=
  Router.handle handler_id_counter r RequestMethod.PUT path fs

/-- The loop of `Router::use` of Router.h over the remaining values of `i`. -/
def Router.use_loop (path : List Char) (fs : List Callable) :
    List Nat → Int → Router → Except Fault (Int × Router)
  | [], handler_id_counter, r => Except.ok (handler_id_counter, r)
  | i :: rest, handler_id_counter, r =>
    match Router.handle handler_id_counter r (RequestMethod.of_underlying i) path fs with
    | Except.error e => Except.error e
    | Except.ok (counter, r2) => Router.use_loop path fs rest counter r2

/-- `Router::use` of Router.h: `handle` for every method from `GET` up to,
excluding, `UNDETERMINED`. -/
def Router.use (handler_id_counter : Int) (r : Router) (path : List Char)
    (fs : List Callable) : Except Fault (Int × Router) :=
  Router.use_loop path fs use_indices handler_id_counter r

end Theros

/-! ## Summer/src/Router.cpp -/

namespace Summer

open Theros

/-- `Router::handle(RequestMethod, const std::string&, HandlerType)`. -/
def Router.handle (r : Router) (method : RequestMethod) (path : List Char)
    (handler : Handler) : Except Fault Router :=
  match r.routing_tables[to_underlying_t method]? with
  | none => Except.error Fault.undefined_behaviour
  | some t =>
    Except.ok ⟨r.routing_tables.set (to_underlying_t method) (t.insert path handler)⟩

/-- `Router::get`. -/
def Router.get (r : Router) (path : List Char) (handler : Handler) : Except Fault Router :=
  Router.handle r RequestMethod.GET path handler

/-- `Router::post`. -/
def Router.post (r : Router) (path : List Char) (handler : Handler) : Except Fault Router :=
  Router.handle r RequestMethod.POST path handler

/-- `Router::put`. -/
def Router.put (r : Router) (path : List Char) (handler : Handler) : Except Fault Router :=
  Router.handle r RequestMethod.PUT path handler

/-- The loop of `Router::use` over the remaining values of `i`. -/
def Router.use_loop (path : List Char) (handler : Handler) :
    List Nat → Router → Except Fault Router
  | [], r => Except.ok r
  | i :: rest, r =>
    match Router.handle r (RequestMethod.of_underlying i) path handler with
    | Except.error e => Except.error e
    | Except.ok r2 => Router.use_loop path handler rest r2

/-- `Router::use`: `handle` for every method from `GET` up to, excluding,
`UNDETERMINED`. -/
def Router.use (r : Router) (path : List Char) (handler : Handler) : Except Fault Router :=
  Router.use_loop path handler use_indices r

/-- The loop `while (found != t.end()) { route.push_back(*found); --found; }`
of `Router::resolve`: `*found` is pushed at every node the iterator comes to,
without a test. `fuel` bounds the number of rounds. -/
def Router.resolve_loop : Nat → TrieIterator Handler → List Handler → List Handler
  | _, none, route => route
  | 0, some _, route => route
  | fuel + 1, some found, route =>
    Router.resolve_loop fuel (TrieIterator.decrement (some found))
      (route ++ [TrieIterator.deref Handler.default_ found])

/-- `Router::resolve(RequestMethod, std::string&)`. The loop gets one round
for the matched node and one for each character of the path, which is as many
as the node has ancestors. -/
def Router.resolve (r : Router) (method : RequestMethod) (path : List Char) :
    Except Fault (List Handler) :=
  match r.routing_tables[to_underlying_t method]? with
  | none => Except.error Fault.undefined_behaviour
  | some t =>
    let found := t.find path
    let route := Router.resolve_loop (path.length + 1) found []
    Except.ok route.reverse

/-- `Router::resolve(Request&)`: reads the method, the path and the table,
and returns an empty route. -/
def Router.resolve_request (r : Router) (request : Request) : Except Fault (List Handler) :=
  match r.routing_tables[to_underlying_t request.method]? with
  | none => Except.error Fault.undefined_behaviour
  | some _ => Except.ok []

end Summer

namespace Theros

/-! ## Vocabulary of the statements -/

/-- The method token of a request method; `UNDETERMINED` has none. -/
def method_word : RequestMethod → List Char
  | RequestMethod.GET => "GET".toList
  | RequestMethod.HEAD => "HEAD".toList
  | RequestMethod.POST => "POST".toList
  | RequestMethod.PUT => "PUT".toList
  | RequestMethod.DELETE => "DELETE".toList
  | RequestMethod.CONNECT => "CONNECT".toList
  | RequestMethod.OPTIONS => "OPTIONS".toList
  | RequestMethod.TRACE => "TRACE".toList
  | RequestMethod.PATCH => "PATCH".toList
  | RequestMethod.UNDETERMINED => []

/-- The two request-URI forms the URI parser knows: path-only `/rest`, and
absolute `scheme://host[:port][/rest]`. -/
inductive RequestUri
  | path_only (rest : List Char)
  | absolute (scheme host : List Char) (port path : Option (List Char))

/-- The optional `:port` part of an absolute request-URI. -/
def port_text : Option (List Char) → List Char
  | none => []
  | some digits => ':' :: digits

/-- The optional `/rest` part of an absolute request-URI. -/
def path_text : Option (List Char) → List Char
  | none => []
  | some rest => '/' :: rest

/-- The text of a request-URI. -/
def RequestUri.render : RequestUri → List Char
  | RequestUri.path_only rest => '/' :: rest
  | RequestUri.absolute scheme host port path =>
    scheme ++ "://".toList ++ host ++ port_text port ++ path_text path

/-- A request-URI is well formed when all its bytes are in `uri_charset`,
the scheme is a non-empty word of letters, the host holds neither `/` nor `:`
and the port is digits. -/
def RequestUri.well_formed : RequestUri → Bool
  | RequestUri.path_only rest => rest.all is_uri
  | RequestUri.absolute scheme host port path =>
    !scheme.isEmpty && scheme.all is_alpha
      && host.all (fun c => is_uri c && c != '/' && c != ':')
      && (match port with | none => true | some digits => digits.all is_digit)
      && (match path with | none => true | some rest => rest.all is_uri)

/-- A byte that may stand in a header value: a space, a tab, or any byte
that is not a control character. -/
def is_value_byte (c : Char) : Bool := is_sp c || is_ht c || !is_ctl c

/-- The bytes of a header value that are kept: all but spaces and tabs. -/
def strip_lws (value : List Char) : List Char :=
  value.filter (fun c => !(is_sp c || is_ht c))

/-- A header line `name: value CRLF`. -/
def header_line (h : Header) : List Char :=
  h.name ++ ": ".toList ++ h.value ++ "\r\n".toList

/-- A header line is well formed when its name is a non-empty word of token
bytes and its value holds value bytes only. -/
def Header.well_formed (h : Header) : Bool :=
  !h.name.isEmpty && h.name.all is_token && h.value.all is_value_byte

/-- A header whose value is folded over continuation lines: `name:`, the
first part of the value, CRLF, and then each continuation line, which is a
leading space or tab, a part of the value, CRLF. -/
def folded_header (name first : List Char) (more : List (Char × List Char)) : List Char :=
  name ++ ':' :: first ++ "\r\n".toList
    ++ (more.map (fun line => line.1 :: line.2 ++ "\r\n".toList)).flatten

/-- The value a folded header ends up with: the kept bytes of each part, in
order, with nothing between the parts. -/
def folded_value (first : List Char) (more : List (Char × List Char)) : List Char :=
  strip_lws first ++ (more.map (fun line => strip_lws line.2)).flatten

/-- A continuation line is well formed when it starts with a space or a tab
and holds value bytes only. -/
def continuation_well_formed (line : Char × List Char) : Bool :=
  (is_sp line.1 || is_ht line.1) && line.2.all is_value_byte

/-- A request head: request line, header lines, empty line. -/
def request_head (m : RequestMethod) (u : RequestUri) (major minor : Char)
    (hs : List Header) : List Char :=
  method_word m ++ ' ' :: u.render ++ " HTTP/".toList ++ [major, '.', minor] ++ "\r\n".toList
    ++ (hs.map header_line).flatten ++ "\r\n".toList

/-- A fresh `Request`: empty URI, no headers. The initial method and version
are left open. -/
def Request.fresh (m : RequestMethod) (v : HttpVersion) : Request := ⟨m, v, Uri.empty, []⟩

/-- A piece of percent-encoded text: a byte standing for itself, or an escape
`%` `hi` `lo`. -/
inductive Piece
  | byte (c : Char)
  | escape (hi lo : Char)

/-- The digits `0`..`9`, `A`..`F` and `a`..`f`, each list in value order. -/
def hex_digits_upper : List Char := "0123456789ABCDEF".toList

/-- The lower-case hexadecimal digits in value order. -/
def hex_digits_lower : List Char := "0123456789abcdef".toList

/-- A hexadecimal digit, of either case. -/
def is_hex_digit (c : Char) : Bool := hex_digits_upper.contains c || hex_digits_lower.contains c

/-- The value of a hexadecimal digit: its position among the digits. -/
def hex_digit_value (c : Char) : Nat :=
  if hex_digits_upper.contains c then hex_digits_upper.indexOf c else hex_digits_lower.indexOf c

/-- A piece is well formed when a plain byte is not `%` and an escape has two
hexadecimal digits. -/
def Piece.well_formed : Piece → Bool
  | Piece.byte c => c != '%'
  | Piece.escape hi lo => is_hex_digit hi && is_hex_digit lo

/-- The encoded text of a piece. -/
def Piece.text : Piece → List Char
  | Piece.byte c => [c]
  | Piece.escape hi lo => ['%', hi, lo]

/-- The byte a piece stands for: `%HH` stands for the byte of value `HH`. -/
def Piece.decoded : Piece → Char
  | Piece.byte c => c
  | Piece.escape hi lo => Char.ofNat (16 * hex_digit_value hi + hex_digit_value lo)

/-- A run in which every call returns in progress: feeding `xs` from parser
`p` and request `r` ends in `p2` and `r2`. -/
def runs (p : RequestParser) (r : Request) (xs : List Char) (p2 : RequestParser)
    (r2 : Request) : Prop :=
  feed p r xs = Except.ok (List.replicate xs.length ParseStatus.in_progress, p2, r2)

/-- A run of the URI parser from state `a` to state `b` in which every call
returns in progress, whatever the request parser's state and the `Uri`. -/
def uri_runs (a : UriState) (xs : List Char) (b : UriState) : Prop :=
  ∀ (s : ParserState) (uri : Uri), ∃ uri2,
    feed_uri ⟨s, a⟩ uri xs = (List.replicate xs.length ParseStatus.in_progress, ⟨s, b⟩, uri2)

/-- Every byte of every text field of the `Uri` satisfies `P`. -/
def Uri.all (P : Char → Prop) (uri : Uri) : Prop :=
  (∀ c ∈ uri.scheme, P c) ∧ (∀ c ∈ uri.host, P c) ∧ (∀ c ∈ uri.port, P c)
    ∧ (∀ c ∈ uri.abs_path, P c) ∧ (∀ c ∈ uri.query, P c) ∧ (∀ c ∈ uri.fragment, P c)

/-- The value stored at the node of `key`, if the node exists and holds
one. -/
def Trie.lookup {α : Type} : Trie α → List Char → Option α
  | Trie.absent, _ => none
  | Trie.node value _, [] => value
  | Trie.node _ children, c :: cs => Trie.lookup (children c) cs

/-- What `operator*` yields at the node of each prefix of `path`, the path
itself included, shortest prefix (the root) first: the value stored there,
or `default_value` where none is. -/
def Trie.nodes_on_path {α : Type} (default_value : α) (t : Trie α) (path : List Char) :
    List α :=
  path.inits.map (fun key => (t.lookup key).getD default_value)

/-- What `operator*` yields on an iterator's way up: at its node, then at
each ancestor, nearest first. -/
def TrieIterator.walk {α : Type} (default_value : α) : TrieIterator α → List α
  | none => []
  | some (v, up) => v.getD default_value :: up.map (fun x => x.getD default_value)

/-- The number of nodes from the iterator's node up to the root. -/
def TrieIterator.depth {α : Type} : TrieIterator α → Nat
  | none => 0
  | some (_, up) => up.length + 1

/-- A lookup of `path` in the table of `method` succeeds and finds `h`. -/
def Router.finds (r : Router) (method : RequestMethod) (path : List Char) (h : Handler) :
    Prop :=
  ∃ t up, r.routing_tables[to_underlying_t method]? = some t ∧ t.find path = some (some h, up)

/-- The table of `method` is the same in both routers. -/
def Router.same_table (r r2 : Router) (method : RequestMethod) : Prop :=
  r2.routing_tables[to_underlying_t method]? = r.routing_tables[to_underlying_t method]?

/-- The handlers built by a sequence of constructor calls, in the order of
the calls, with the counter they leave. -/
def Handler.construct_all : Int → List (List Callable) → Except Fault (Int × List Handler)
  | handler_id_counter, [] => Except.ok (handler_id_counter, [])
  | handler_id_counter, fs :: rest =>
    match Handler.construct handler_id_counter fs with
    | Except.error e => Except.error e
    | Except.ok (counter, h) =>
      match Handler.construct_all counter rest with
      | Except.error e => Except.error e
      | Except.ok (counter2, hs) => Except.ok (counter2, h :: hs)

/-- The number of text fields in which two `Uri`s differ. -/
def Uri.changed_fields (a b : Uri) : Nat :=
  (if a.scheme = b.scheme then 0 else 1) + (if a.host = b.host then 0 else 1)
    + (if a.port = b.port then 0 else 1) + (if a.abs_path = b.abs_path then 0 else 1)
    + (if a.query = b.query then 0 else 1) + (if a.fragment = b.fragment then 0 else 1)

/-- What a call of `consume(Request&, char)` shows of the parser: the status
it returns and the state it leaves, or the fault it ends in. -/
def outcome (x : Except Fault (ParseStatus × RequestParser × Request)) :
    Except Fault (ParseStatus × RequestParser) :=
  match x with
  | Except.ok (status, p, _) => Except.ok (status, p)
  | Except.error e => Except.error e

/-- Two results of `consume(Request&, char)` agree: if both calls returned,
they returned the same status and left the parser in the same state. -/
def returns_agree (x y : Except Fault (ParseStatus × RequestParser × Request)) : Prop :=
  ∀ a b, outcome x = Except.ok a → outcome y = Except.ok b → a = b

/-- No header value holds a space or a horizontal tab. -/
def values_without_lws (headers : List Header) : Prop :=
  ∀ h ∈ headers, ' ' ∉ h.value ∧ '\t' ∉ h.value

/-- The characters `- _ . ~` that are unreserved besides letters and
digits. -/
def unreserved_marks : List Char := "-_.~".toList

/-- The characters `- _ . ~ ! * ' ( ) ; : @ & = + $ , / ? # [ ]` that may
stand in a URI besides letters and digits. -/
def uri_marks : List Char := "-_.~!*'();:@&=+$,/?#[]".toList

/-! ## Theorems -/

open ParseStatus ParserState UriState

/-! ### Running the URI parser -/

theorem feed_uri_append (p : RequestParser) (uri : Uri) (xs ys : List Char)
    {s1 s2 : List ParseStatus} {p1 p2 : RequestParser} {u1 u2 : Uri}
    (h1 : feed_uri p uri xs = (s1, p1, u1)) (h2 : feed_uri p1 u1 ys = (s2, p2, u2)) :
    feed_uri p uri (xs ++ ys) = (s1 ++ s2, p2, u2) := by
  induction xs generalizing p uri s1 with
  | nil =>
    simp only [feed_uri, Prod.mk.injEq] at h1
    obtain ⟨rfl, rfl, rfl⟩ := h1
    simpa using h2
  | cons c cs ih =>
    simp only [feed_uri] at h1
    simp only [List.cons_append, feed_uri]
    generalize hc : RequestParser.consume_uri p uri c = step at h1 ⊢
    obtain ⟨st, pc, uc⟩ := step
    generalize hr : feed_uri pc uc cs = rest at h1
    obtain ⟨sr, pr, ur⟩ := rest
    simp only [Prod.mk.injEq] at h1
    obtain ⟨rfl, rfl, rfl⟩ := h1
    simp [ih pc uc hr]

theorem feed_uri_abs_path (s : ParserState) (uri : Uri) (xs : List Char)
    (h1 : '?' ∉ xs) (h2 : '#' ∉ xs) :
    feed_uri ⟨s, uri_abs_path⟩ uri xs
      = (List.replicate xs.length in_progress, ⟨s, uri_abs_path⟩,
          { uri with abs_path := uri.abs_path ++ xs }) := by
  induction xs generalizing uri with
  | nil => simp [feed_uri]
  | cons c cs ih =>
    simp only [List.mem_cons, not_or] at h1 h2
    have e1 : c ≠ '?' := fun h => h1.1 h.symm
    have e2 : c ≠ '#' := fun h => h2.1 h.symm
    simp [feed_uri, RequestParser.consume_uri, e1, e2, ih _ h1.2 h2.2, List.replicate_succ]

theorem feed_uri_query (s : ParserState) (uri : Uri) (xs : List Char) (h2 : '#' ∉ xs) :
    feed_uri ⟨s, uri_query⟩ uri xs
      = (List.replicate xs.length in_progress, ⟨s, uri_query⟩,
          { uri with query := uri.query ++ xs }) := by
  induction xs generalizing uri with
  | nil => simp [feed_uri]
  | cons c cs ih =>
    simp only [List.mem_cons, not_or] at h2
    have e2 : c ≠ '#' := fun h => h2.1 h.symm
    simp [feed_uri, RequestParser.consume_uri, e2, ih _ h2.2, List.replicate_succ]

theorem feed_uri_fragment (s : ParserState) (uri : Uri) (xs : List Char) :
    feed_uri ⟨s, uri_fragment⟩ uri xs
      = (List.replicate xs.length in_progress, ⟨s, uri_fragment⟩,
          { uri with fragment := uri.fragment ++ xs }) := by
  induction xs generalizing uri with
  | nil => simp [feed_uri]
  | cons c cs ih => simp [feed_uri, RequestParser.consume_uri, ih, List.replicate_succ]

/-! ### The URI parser -/

/-- C9: `consume(Uri&, char)` never returns accept, and it returns reject
exactly when the state is start and the byte is neither `/` nor a letter, the
state is scheme and the byte is neither a letter nor `:`, the state is slash
or slash-slash and the byte is not `/`, or the state is port and the byte is
neither a digit nor `/`; in the states host, abs_path, query and fragment
every byte is in progress. -/
theorem consume_uri_reject_iff (p : RequestParser) (uri : Uri) (c : Char) :
    (RequestParser.consume_uri p uri c).1 ≠ accept
    ∧ ((RequestParser.consume_uri p uri c).1 = reject ↔
        (p.uri_state_ = uri_start ∧ c ≠ '/' ∧ is_alpha c = false)
        ∨ (p.uri_state_ = uri_scheme ∧ is_alpha c = false ∧ c ≠ ':')
        ∨ ((p.uri_state_ = uri_slash ∨ p.uri_state_ = uri_slash_shash) ∧ c ≠ '/')
        ∨ (p.uri_state_ = uri_port ∧ is_digit c = false ∧ c ≠ '/'))
    ∧ (RequestParser.consume_uri ⟨p.state_, uri_host⟩ uri c).1 = in_progress
    ∧ (RequestParser.consume_uri ⟨p.state_, uri_abs_path⟩ uri c).1 = in_progress
    ∧ (RequestParser.consume_uri ⟨p.state_, uri_query⟩ uri c).1 = in_progress
    ∧ (RequestParser.consume_uri ⟨p.state_, uri_fragment⟩ uri c).1 = in_progress := by
  obtain ⟨s, us⟩ := p
  refine ⟨?_, ?_, ?_, ?_, ?_, ?_⟩
  · cases us <;> simp only [RequestParser.consume_uri] <;> (try split_ifs) <;> simp
  · cases us <;> simp only [RequestParser.consume_uri] <;> (try split_ifs) <;> simp_all
  · simp only [RequestParser.consume_uri]; split_ifs <;> rfl
  · simp only [RequestParser.consume_uri]; split_ifs <;> rfl
  · simp only [RequestParser.consume_uri]; split_ifs <;> rfl
  · simp only [RequestParser.consume_uri]

/-- C10: for `p` without `?` and `#`, `q` without `#` and any `f`, feeding
`"/" ++ p ++ "?" ++ q ++ "#" ++ f` to `consume(Uri&, char)` from the start
state with an empty `Uri` returns in progress on every byte and ends with
abs_path `"/" ++ p`, query `q`, fragment `f`, and scheme, host and port
empty. -/
theorem path_only_split (s : ParserState) (p q f : List Char)
    (hp1 : '?' ∉ p) (hp2 : '#' ∉ p) (hq : '#' ∉ q) :
    feed_uri ⟨s, uri_start⟩ Uri.empty ('/' :: p ++ '?' :: q ++ '#' :: f)
      = (List.replicate ('/' :: p ++ '?' :: q ++ '#' :: f).length in_progress,
          ⟨s, uri_fragment⟩,
          { scheme := [], host := [], port := [], abs_path := '/' :: p, query := q,
            fragment := f }) := by
  have e1 : feed_uri ⟨s, uri_start⟩ Uri.empty ('/' :: p)
      = (List.replicate ('/' :: p).length in_progress, ⟨s, uri_abs_path⟩,
          { Uri.empty with abs_path := '/' :: p }) := by
    simp [feed_uri, RequestParser.consume_uri, feed_uri_abs_path _ _ _ hp1 hp2,
      List.replicate_succ, Uri.empty]
  have e2 : feed_uri ⟨s, uri_abs_path⟩ { Uri.empty with abs_path := '/' :: p } ('?' :: q)
      = (List.replicate ('?' :: q).length in_progress, ⟨s, uri_query⟩,
          { Uri.empty with abs_path := '/' :: p, query := q }) := by
    simp [feed_uri, RequestParser.consume_uri, feed_uri_query _ _ _ hq,
      List.replicate_succ, Uri.empty]
  have e3 : feed_uri ⟨s, uri_query⟩ { Uri.empty with abs_path := '/' :: p, query := q }
      ('#' :: f)
      = (List.replicate ('#' :: f).length in_progress, ⟨s, uri_fragment⟩,
          { Uri.empty with abs_path := '/' :: p, query := q, fragment := f }) := by
    simp [feed_uri, RequestParser.consume_uri, feed_uri_fragment, List.replicate_succ,
      Uri.empty]
  have e := feed_uri_append _ _ _ _ (feed_uri_append _ _ _ _ e1 e2) e3
  rw [List.append_replicate_replicate, List.append_replicate_replicate,
    ← List.length_append, ← List.length_append] at e
  exact e

/-- C10, at `"/a/b?x=1#top"`. -/
theorem path_only_split_witness :
    feed_uri ⟨req_uri, uri_start⟩ Uri.empty "/a/b?x=1#top".toList
      = (List.replicate 12 in_progress, ⟨req_uri, uri_fragment⟩,
          { scheme := [], host := [], port := [], abs_path := "/a/b".toList,
            query := "x=1".toList, fragment := "top".toList }) :=
  path_only_split req_uri "a/b".toList "x=1".toList "top".toList
    (by decide) (by decide) (by decide)

/-! ### The request line -/

/-- C2: each of `"GET "`, `"POST "`, `"PUT "`, `"PATCH "`, `"HEAD "`,
`"DELETE "`, `"OPTIONS "`, `"TRACE "`, `"CONNECT "`, fed byte by byte to a
fresh parser, returns in progress on every call, sets the request's method to
the method of that name and leaves the parser in the URI state. -/
theorem method_words_parse (r : Request) :
    feed RequestParser.init r "GET ".toList
      = Except.ok (List.replicate 4 in_progress, ⟨req_uri, uri_start⟩,
          { r with method := RequestMethod.GET })
    ∧ feed RequestParser.init r "POST ".toList
      = Except.ok (List.replicate 5 in_progress, ⟨req_uri, uri_start⟩,
          { r with method := RequestMethod.POST })
    ∧ feed RequestParser.init r "PUT ".toList
      = Except.ok (List.replicate 4 in_progress, ⟨req_uri, uri_start⟩,
          { r with method := RequestMethod.PUT })
    ∧ feed RequestParser.init r "PATCH ".toList
      = Except.ok (List.replicate 6 in_progress, ⟨req_uri, uri_start⟩,
          { r with method := RequestMethod.PATCH })
    ∧ feed RequestParser.init r "HEAD ".toList
      = Except.ok (List.replicate 5 in_progress, ⟨req_uri, uri_start⟩,
          { r with method := RequestMethod.HEAD })
    ∧ feed RequestParser.init r "DELETE ".toList
      = Except.ok (List.replicate 7 in_progress, ⟨req_uri, uri_start⟩,
          { r with method := RequestMethod.DELETE })
    ∧ feed RequestParser.init r "OPTIONS ".toList
      = Except.ok (List.replicate 8 in_progress, ⟨req_uri, uri_start⟩,
          { r with method := RequestMethod.OPTIONS })
    ∧ feed RequestParser.init r "TRACE ".toList
      = Except.ok (List.replicate 6 in_progress, ⟨req_uri, uri_start⟩,
          { r with method := RequestMethod.TRACE })
    ∧ feed RequestParser.init r "CONNECT ".toList
      = Except.ok (List.replicate 8 in_progress, ⟨req_uri, uri_start⟩,
          { r with method := RequestMethod.CONNECT }) :=
  ⟨rfl, rfl, rfl, rfl, rfl, rfl, rfl, rfl, rfl⟩

theorem undetermined_second_byte (p : RequestParser) (r : Request) (c : Char)
    (hp : p.state_ = req_method) (hm : r.method = RequestMethod.UNDETERMINED) :
    RequestParser.consume p r c
      = if is_token c = true then
          if c = 'O' then Except.ok (in_progress, p, { r with method := RequestMethod.POST })
          else if c = 'U' then Except.ok (in_progress, p, { r with method := RequestMethod.PUT })
          else if c = 'A' then
            Except.ok (in_progress, p, { r with method := RequestMethod.PATCH })
          else Except.ok (reject, p, r)
        else if is_sp c = true then
          Except.ok (in_progress, { p with state_ := req_uri }, r)
        else Except.ok (reject, p, r) := by
  simp only [RequestParser.consume, hp, hm, if_true]

/-- C3, at the input `"P "`: after a first byte `P` a space as second byte is
not rejected; it returns in progress and moves the parser to the URI state
with the method still undetermined. -/
theorem space_after_P_not_rejected (r : Request) :
    feed RequestParser.init r "P ".toList
      = Except.ok ([in_progress, in_progress], ⟨req_uri, uri_start⟩,
          { r with method := RequestMethod.UNDETERMINED }) :=
  rfl

/-- C4, at the inputs `"GET / HTTP/2.0"` and `"GET / HTTP/0.9"`: once the
minor digit is consumed, the first has version 1.0, whatever it was before,
not 2.0, and the second keeps the version it had instead of getting 0.9. -/
theorem version_major_digit_lost (m : RequestMethod) (v : HttpVersion) :
    feed RequestParser.init (Request.fresh m v) "GET / HTTP/2.0".toList
      = Except.ok (List.replicate 14 in_progress, ⟨req_start_line_cr, uri_abs_path⟩,
          { method := RequestMethod.GET, version := HttpVersion.one_zero,
            uri := { Uri.empty with abs_path := "/".toList }, headers := [] })
    ∧ feed RequestParser.init (Request.fresh m v) "GET / HTTP/0.9".toList
      = Except.ok (List.replicate 14 in_progress, ⟨req_start_line_cr, uri_abs_path⟩,
          { method := RequestMethod.GET, version := v,
            uri := { Uri.empty with abs_path := "/".toList }, headers := [] }) :=
  ⟨rfl, rfl⟩

/-- C5, at the request line `"GET /a%20b?q=%2B1 "`: both `%` bytes are
rejected, and after the terminating space abs_path is `"/a20b"` and query is
`"q=2B1"`. -/
theorem percent_in_uri_rejected (m : RequestMethod) (v : HttpVersion) :
    feed RequestParser.init (Request.fresh m v) "GET /a%20b?q=%2B1 ".toList
      = Except.ok
          (List.replicate 6 in_progress ++ [reject] ++ List.replicate 6 in_progress
            ++ [reject] ++ List.replicate 4 in_progress,
           ⟨req_http_h, uri_query⟩,
           { method := RequestMethod.GET, version := v,
             uri := { Uri.empty with abs_path := "/a20b".toList, query := "q=2B1".toList },
             headers := [] }) :=
  rfl

/-! ### Percent-coding -/

theorem ctohex_of_lt {c : Nat} (h : c < 16) : ctohex c = [hex_upper c] := by
  rw [ctohex, dif_pos h]

/-- C7, at the input `"\nb"`: `urlencode` gives `"%Ab"`, which `urldecode`
turns into the single byte of value 0xAB, not back into `"\nb"`. -/
theorem urldecode_urlencode_newline_b :
    urlencode "\nb".toList = "%Ab".toList
    ∧ urldecode (urlencode "\nb".toList) = some [Char.ofNat 171]
    ∧ urldecode (urlencode "\nb".toList) ≠ some "\nb".toList := by
  have h : urlencode "\nb".toList = "%Ab".toList := by
    have e : ctohex ('\n'.toNat % 256) = ['A'] := by
      rw [ctohex_of_lt (by decide)]; decide
    have e1 : is_uri_unreserved '\n' = false := by decide
    have e2 : is_uri_unreserved 'b' = true := by decide
    show List.foldl _ [] ['\n', 'b'] = _
    simp only [List.foldl, e1, e2, e]
    rfl
  refine ⟨h, ?_, ?_⟩ <;> rw [h] <;> decide

theorem hex_value_table :
    ∀ c ∈ hex_digits_upper ++ hex_digits_lower,
      hex_value c = some (hex_digit_value c) ∧ hex_digit_value c < 16 := by
  decide

theorem hex_value_of_is_hex_digit {c : Char} (h : is_hex_digit c = true) :
    hex_value c = some (hex_digit_value c) ∧ hex_digit_value c < 16 := by
  apply hex_value_table
  simp [is_hex_digit] at h
  exact List.mem_append.mpr h

theorem hex_digit_plain_table :
    ∀ c ∈ hex_digits_upper ++ hex_digits_lower, isspace c = false ∧ c ≠ '+' ∧ c ≠ '-' := by
  decide

theorem sscanf_hex_of_digits {hi lo : Char} (h1 : is_hex_digit hi = true)
    (h2 : is_hex_digit lo = true) :
    sscanf_hex hi lo = some (16 * hex_digit_value hi + hex_digit_value lo)
    ∧ 16 * hex_digit_value hi + hex_digit_value lo < 256 := by
  obtain ⟨e1, b1⟩ := hex_value_of_is_hex_digit h1
  obtain ⟨e2, b2⟩ := hex_value_of_is_hex_digit h2
  obtain ⟨p1, p2, p3⟩ : isspace hi = false ∧ hi ≠ '+' ∧ hi ≠ '-' := by
    apply hex_digit_plain_table
    simp [is_hex_digit] at h1
    exact List.mem_append.mpr h1
  refine ⟨?_, by omega⟩
  simp only [sscanf_hex, p1, p2, p3, e1, e2, if_false, Bool.false_eq_true]

theorem urldecode_loop_cons_of_ne (cvt : Option Nat) (c : Char) (rest : List Char)
    (h : c ≠ '%') :
    urldecode_loop cvt (c :: rest)
      = (urldecode_loop cvt rest).map (fun decoded => c :: decoded) := by
  rcases rest with _ | ⟨a, _ | ⟨b, r⟩⟩ <;> simp [urldecode_loop, h]

theorem urldecode_loop_escape (cvt : Option Nat) (h1 h2 : Char) (rest : List Char) :
    urldecode_loop cvt ('%' :: h1 :: h2 :: rest)
      = match (sscanf_hex h1 h2).or cvt with
        | some value =>
          (urldecode_loop (some value) rest).map
            (fun decoded => Char.ofNat (value % 256) :: decoded)
        | none => none := by
  simp [urldecode_loop]

theorem urldecode_cons_of_ne (c : Char) (rest : List Char) (h : c ≠ '%') :
    urldecode (c :: rest) = (urldecode rest).map (fun decoded => c :: decoded) :=
  urldecode_loop_cons_of_ne none c rest h

theorem urldecode_loop_pieces (cvt : Option Nat) (ps : List Piece)
    (h : ∀ x ∈ ps, x.well_formed = true) :
    urldecode_loop cvt (ps.map Piece.text).flatten = some (ps.map Piece.decoded) := by
  induction ps generalizing cvt with
  | nil => rfl
  | cons x xs ih =>
    have hx := h x (List.mem_cons_self x xs)
    have ih := fun cvt2 => ih cvt2 (fun y hy => h y (List.mem_cons_of_mem x hy))
    cases x with
    | byte c =>
      have hc : c ≠ '%' := by simpa [Piece.well_formed] using hx
      simp [Piece.text, Piece.decoded, urldecode_loop_cons_of_ne _ _ _ hc, ih]
    | escape hi lo =>
      simp only [Piece.well_formed, Bool.and_eq_true] at hx
      obtain ⟨e, b⟩ := sscanf_hex_of_digits hx.1 hx.2
      simp [Piece.text, Piece.decoded, urldecode_loop_escape, e, ih, Nat.mod_eq_of_lt b]

/-- C6: for a text in which every `%` is followed by two hexadecimal digits,
that is the text of a list of well-formed pieces, `urldecode` returns the
bytes the pieces stand for: each `%HH` replaced by the byte of value `HH`,
every other byte copied. -/
theorem urldecode_pieces (ps : List Piece) (h : ∀ x ∈ ps, x.well_formed = true) :
    urldecode (ps.map Piece.text).flatten = some (ps.map Piece.decoded) :=
  urldecode_loop_pieces none ps h

/-- C6, at `"/a%20b"` and `"q=%2B1"`. -/
theorem urldecode_pieces_witness :
    urldecode "/a%20b".toList = some "/a b".toList
    ∧ urldecode "q=%2B1".toList = some "q=+1".toList :=
  ⟨urldecode_pieces
      [Piece.byte '/', Piece.byte 'a', Piece.escape '2' '0', Piece.byte 'b'] (by decide),
   urldecode_pieces
      [Piece.byte 'q', Piece.byte '=', Piece.escape '2' 'B', Piece.byte '1'] (by decide)⟩

/-! ### Runs of the request parser -/

theorem runs_nil (p : RequestParser) (r : Request) : runs p r [] p r := rfl

theorem runs_cons {p p1 p2 : RequestParser} {r r1 r2 : Request} {c : Char} {cs : List Char}
    (h1 : RequestParser.consume p r c = Except.ok (in_progress, p1, r1))
    (h2 : runs p1 r1 cs p2 r2) : runs p r (c :: cs) p2 r2 := by
  unfold runs at h2 ⊢
  simp [feed, h1, h2, List.replicate_succ]

theorem feed_append {p p1 p2 : RequestParser} {r r1 r2 : Request} {xs ys : List Char}
    {s1 s2 : List ParseStatus}
    (h1 : feed p r xs = Except.ok (s1, p1, r1)) (h2 : feed p1 r1 ys = Except.ok (s2, p2, r2)) :
    feed p r (xs ++ ys) = Except.ok (s1 ++ s2, p2, r2) := by
  induction xs generalizing p r s1 with
  | nil =>
    simp only [feed, Except.ok.injEq, Prod.mk.injEq] at h1
    obtain ⟨rfl, rfl, rfl⟩ := h1
    simpa using h2
  | cons c cs ih =>
    simp only [feed] at h1
    simp only [List.cons_append, feed]
    cases hc : RequestParser.consume p r c with
    | error e => simp [hc] at h1
    | ok step =>
      obtain ⟨st, pc, rc⟩ := step
      simp only [hc] at h1
      cases hr : feed pc rc cs with
      | error e => simp [hr] at h1
      | ok rest =>
        obtain ⟨sr, pr, rr⟩ := rest
        simp only [hr, Except.ok.injEq, Prod.mk.injEq] at h1
        obtain ⟨rfl, rfl, rfl⟩ := h1
        simp [ih hr]

theorem runs_append {p p1 p2 : RequestParser} {r r1 r2 : Request} {xs ys : List Char}
    (h1 : runs p r xs p1 r1) (h2 : runs p1 r1 ys p2 r2) : runs p r (xs ++ ys) p2 r2 := by
  unfold runs at h1 h2 ⊢
  rw [feed_append h1 h2, List.append_replicate_replicate, List.length_append]

/-! ### Header lines -/

theorem is_token_facts {c : Char} (h : is_token c = true) :
    is_cr c = false ∧ is_sp c = false ∧ is_ht c = false ∧ c ≠ ':' := by
  refine ⟨?_, ?_, ?_, ?_⟩
  · simp only [is_cr, beq_eq_false_iff_ne]; rintro rfl; revert h; decide
  · simp only [is_sp, beq_eq_false_iff_ne]; rintro rfl; revert h; decide
  · simp only [is_ht, beq_eq_false_iff_ne]; rintro rfl; revert h; decide
  · rintro rfl; revert h; decide

theorem is_ctl_of_is_cr {c : Char} (h : is_cr c = true) : is_ctl c = true := by
  simp only [is_cr, beq_iff_eq] at h
  subst h
  decide

theorem modify_back_append_singleton {α : Type} (f : α → α) (xs : List α) (x : α) :
    modify_back f (xs ++ [x]) = xs ++ [f x] := by
  induction xs with
  | nil => rfl
  | cons y ys ih =>
    cases ys with
    | nil => rfl
    | cons z zs =>
      show y :: modify_back f ((z :: zs) ++ [x]) = y :: ((z :: zs) ++ [f x])
      rw [ih]

theorem runs_field_name (us : UriState) (m : RequestMethod) (v : HttpVersion) (u : Uri)
    (hs : List Header) (n val xs : List Char) (h : ∀ c ∈ xs, is_token c = true) :
    runs ⟨req_field_name, us⟩ ⟨m, v, u, hs ++ [⟨n, val⟩]⟩ xs
      ⟨req_field_name, us⟩ ⟨m, v, u, hs ++ [⟨n ++ xs, val⟩]⟩ := by
  induction xs generalizing n with
  | nil => simpa using runs_nil _ _
  | cons c cs ih =>
    have hc := h c (List.mem_cons_self c cs)
    have e := ih (n ++ [c]) (fun d hd => h d (List.mem_cons_of_mem c hd))
    rw [List.append_assoc, List.singleton_append] at e
    refine runs_cons ?_ e
    simp [RequestParser.consume, RequestParser.case_req_field_name,
      RequestParser.build_header_name, hc, modify_back_append_singleton]

theorem runs_field_value (us : UriState) (m : RequestMethod) (v : HttpVersion) (u : Uri)
    (hs : List Header) (n val xs : List Char) (h : ∀ c ∈ xs, is_value_byte c = true) :
    runs ⟨req_field_value, us⟩ ⟨m, v, u, hs ++ [⟨n, val⟩]⟩ xs
      ⟨req_field_value, us⟩ ⟨m, v, u, hs ++ [⟨n, val ++ strip_lws xs⟩]⟩ := by
  induction xs generalizing val with
  | nil => simpa [strip_lws] using runs_nil _ _
  | cons c cs ih =>
    have hc := h c (List.mem_cons_self c cs)
    have hcs : ∀ d ∈ cs, is_value_byte d = true := fun d hd => h d (List.mem_cons_of_mem c hd)
    by_cases hw : (is_sp c || is_ht c) = true
    · have e := ih val hcs
      have e2 : strip_lws (c :: cs) = strip_lws cs :=
        List.filter_cons_of_neg (by simp [hw])
      rw [e2]
      refine runs_cons ?_ e
      simp [RequestParser.consume, hw]
    · have hw2 : (is_sp c || is_ht c) = false := by simpa using hw
      have hctl : is_ctl c = false := by
        simp only [is_value_byte, Bool.or_eq_true] at hc
        rcases hc with hc | hc
        · exact absurd (by simpa using hc) hw
        · simpa using hc
      have hcr : is_cr c = false := by
        cases hcr : is_cr c with
        | false => rfl
        | true => rw [is_ctl_of_is_cr hcr] at hctl; exact absurd hctl (by simp)
      have e := ih (val ++ [c]) hcs
      have e2 : strip_lws (c :: cs) = c :: strip_lws cs :=
        List.filter_cons_of_pos (by simp [hw2])
      rw [List.append_assoc, List.singleton_append] at e
      rw [e2]
      refine runs_cons ?_ e
      simp [RequestParser.consume, RequestParser.build_header_value, hw2, hctl, hcr,
        modify_back_append_singleton]

theorem consume_start_header (st : ParserState) (us : UriState) (r : Request) (c : Char)
    (hst : st = req_field_name_start ∨ st = req_header_lws) (hc : is_token c = true) :
    RequestParser.consume ⟨st, us⟩ r c
      = Except.ok (in_progress, ⟨req_field_name, us⟩,
          { r with headers := r.headers ++ [⟨[c], []⟩] }) := by
  obtain ⟨h1, h2, h3, -⟩ := is_token_facts hc
  rcases hst with rfl | rfl <;>
    simp [RequestParser.consume, RequestParser.start_header, RequestParser.build_header_name,
      emplace_back_header, modify_back_append_singleton, hc, h1, h2, h3]

theorem runs_value_crlf (us : UriState) (r : Request) :
    runs ⟨req_field_value, us⟩ r "\r\n".toList ⟨req_header_lws, us⟩ r := by
  unfold runs
  rfl

theorem runs_header (st : ParserState) (us : UriState) (m : RequestMethod) (v : HttpVersion)
    (u : Uri) (hs : List Header) (name val : List Char)
    (hst : st = req_field_name_start ∨ st = req_header_lws)
    (hn : name ≠ []) (hname : ∀ c ∈ name, is_token c = true)
    (hval : ∀ c ∈ val, is_value_byte c = true) :
    runs ⟨st, us⟩ ⟨m, v, u, hs⟩ (name ++ ':' :: val ++ "\r\n".toList)
      ⟨req_header_lws, us⟩ ⟨m, v, u, hs ++ [⟨name, strip_lws val⟩]⟩ := by
  obtain ⟨c, cs, rfl⟩ := List.exists_cons_of_ne_nil hn
  have hc := hname c (List.mem_cons_self c cs)
  have hcs : ∀ d ∈ cs, is_token d = true := fun d hd => hname d (List.mem_cons_of_mem c hd)
  have e1 := runs_field_name us m v u hs [c] [] cs hcs
  have e2 := runs_field_value us m v u hs (c :: cs) [] val hval
  have e3 := runs_value_crlf us ⟨m, v, u, hs ++ [⟨c :: cs, [] ++ strip_lws val⟩]⟩
  have colon : RequestParser.consume ⟨req_field_name, us⟩ ⟨m, v, u, hs ++ [⟨c :: cs, []⟩]⟩ ':'
      = Except.ok (in_progress, ⟨req_field_value, us⟩, ⟨m, v, u, hs ++ [⟨c :: cs, []⟩]⟩) := by
    have : is_token ':' = false := by decide
    simp [RequestParser.consume, RequestParser.case_req_field_name, this]
  have e := runs_cons (consume_start_header st us ⟨m, v, u, hs⟩ c hst hc)
    (runs_append e1 (runs_cons colon (runs_append e2 e3)))
  simpa using e

theorem runs_continuation (us : UriState) (m : RequestMethod) (v : HttpVersion) (u : Uri)
    (hs : List Header) (n val : List Char) (line : Char × List Char)
    (h : continuation_well_formed line = true) :
    runs ⟨req_header_lws, us⟩ ⟨m, v, u, hs ++ [⟨n, val⟩]⟩ (line.1 :: line.2 ++ "\r\n".toList)
      ⟨req_header_lws, us⟩ ⟨m, v, u, hs ++ [⟨n, val ++ strip_lws line.2⟩]⟩ := by
  simp only [continuation_well_formed, Bool.and_eq_true, List.all_eq_true] at h
  have e2 := runs_field_value us m v u hs n val line.2 h.2
  have e3 := runs_value_crlf us ⟨m, v, u, hs ++ [⟨n, val ++ strip_lws line.2⟩]⟩
  have first : RequestParser.consume ⟨req_header_lws, us⟩ ⟨m, v, u, hs ++ [⟨n, val⟩]⟩ line.1
      = Except.ok (in_progress, ⟨req_field_value, us⟩, ⟨m, v, u, hs ++ [⟨n, val⟩]⟩) := by
    simp [RequestParser.consume, h.1]
  exact runs_cons first (runs_append e2 e3)

theorem runs_continuations (us : UriState) (m : RequestMethod) (v : HttpVersion) (u : Uri)
    (hs : List Header) (n val : List Char) (more : List (Char × List Char))
    (h : ∀ line ∈ more, continuation_well_formed line = true) :
    runs ⟨req_header_lws, us⟩ ⟨m, v, u, hs ++ [⟨n, val⟩]⟩
      (more.map (fun line => line.1 :: line.2 ++ "\r\n".toList)).flatten
      ⟨req_header_lws, us⟩
      ⟨m, v, u, hs ++ [⟨n, val ++ (more.map (fun line => strip_lws line.2)).flatten⟩]⟩ := by
  induction more generalizing val with
  | nil => simpa using runs_nil _ _
  | cons line rest ih =>
    have e1 := runs_continuation us m v u hs n val line (h line (List.mem_cons_self line rest))
    have e2 := ih (val ++ strip_lws line.2) (fun l hl => h l (List.mem_cons_of_mem line hl))
    simpa using runs_append e1 e2

/-- C8: a header fed at the header-name start, whose value is folded over any
number of continuation lines (CRLF followed by a space or a tab), yields one
header only: no continuation line starts a new header, and the value is the
non-whitespace bytes of all the parts joined with nothing between them. -/
theorem folded_header_one_value (us : UriState) (r : Request) (name first : List Char)
    (more : List (Char × List Char))
    (hn : name ≠ []) (hname : ∀ c ∈ name, is_token c = true)
    (hfirst : ∀ c ∈ first, is_value_byte c = true)
    (hmore : ∀ line ∈ more, continuation_well_formed line = true) :
    feed ⟨req_field_name_start, us⟩ r (folded_header name first more)
      = Except.ok (List.replicate (folded_header name first more).length in_progress,
          ⟨req_header_lws, us⟩,
          { r with headers := r.headers ++ [⟨name, folded_value first more⟩] }) := by
  obtain ⟨m, v, u, hs⟩ := r
  have e1 := runs_header req_field_name_start us m v u hs name first (Or.inl rfl) hn hname hfirst
  have e2 := runs_continuations us m v u hs name (strip_lws first) more hmore
  exact runs_append e1 e2

/-- C8, at `"X: a\r\n\tb\r\n"`: one header, named `X`, with value `ab`. -/
theorem folded_header_one_value_witness :
    feed ⟨req_field_name_start, uri_abs_path⟩
        ⟨RequestMethod.GET, HttpVersion.one_one, Uri.empty, []⟩ "X: a\r\n\tb\r\n".toList
      = Except.ok (List.replicate 10 in_progress, ⟨req_header_lws, uri_abs_path⟩,
          ⟨RequestMethod.GET, HttpVersion.one_one, Uri.empty, [⟨"X".toList, "ab".toList⟩]⟩) :=
  folded_header_one_value uri_abs_path ⟨RequestMethod.GET, HttpVersion.one_one, Uri.empty, []⟩
    "X".toList " a".toList [('\t', "b".toList)] (by decide) (by decide) (by decide) (by decide)

/-! ### The request-URI inside the request line -/

theorem uri_runs_nil (a : UriState) : uri_runs a [] a :=
  fun _ uri => ⟨uri, rfl⟩

theorem uri_runs_cons {a b d : UriState} {c : Char} {cs : List Char}
    (h1 : ∀ (s : ParserState) (uri : Uri), ∃ uri2,
      RequestParser.consume_uri ⟨s, a⟩ uri c = (in_progress, ⟨s, b⟩, uri2))
    (h2 : uri_runs b cs d) : uri_runs a (c :: cs) d := by
  intro s uri
  obtain ⟨u1, e1⟩ := h1 s uri
  obtain ⟨u2, e2⟩ := h2 s u1
  exact ⟨u2, by simp [feed_uri, e1, e2, List.replicate_succ]⟩

theorem uri_runs_append {a b d : UriState} {xs ys : List Char}
    (h1 : uri_runs a xs b) (h2 : uri_runs b ys d) : uri_runs a (xs ++ ys) d := by
  intro s uri
  obtain ⟨u1, e1⟩ := h1 s uri
  obtain ⟨u2, e2⟩ := h2 s u1
  refine ⟨u2, ?_⟩
  rw [feed_uri_append _ _ _ _ e1 e2, List.append_replicate_replicate, List.length_append]

theorem is_alpha_ne {c : Char} (h : is_alpha c = true) : c ≠ '/' ∧ c ≠ ':' := by
  constructor <;> rintro rfl <;> revert h <;> decide

theorem is_digit_ne {c : Char} (h : is_digit c = true) : c ≠ '/' := by
  rintro rfl; revert h; decide

theorem uri_runs_scheme (xs : List Char) (h : ∀ c ∈ xs, is_alpha c = true) :
    uri_runs uri_scheme xs uri_scheme := by
  induction xs with
  | nil => exact uri_runs_nil _
  | cons c cs ih =>
    refine uri_runs_cons (fun s uri => ?_) (ih (fun d hd => h d (List.mem_cons_of_mem c hd)))
    simp [RequestParser.consume_uri, h c (List.mem_cons_self c cs)]

theorem uri_runs_host (xs : List Char) (h : ∀ c ∈ xs, c ≠ '/' ∧ c ≠ ':') :
    uri_runs uri_host xs uri_host := by
  induction xs with
  | nil => exact uri_runs_nil _
  | cons c cs ih =>
    refine uri_runs_cons (fun s uri => ?_) (ih (fun d hd => h d (List.mem_cons_of_mem c hd)))
    obtain ⟨h1, h2⟩ := h c (List.mem_cons_self c cs)
    simp [RequestParser.consume_uri, h1, h2]

theorem uri_runs_port (xs : List Char) (h : ∀ c ∈ xs, is_digit c = true) :
    uri_runs uri_port xs uri_port := by
  induction xs with
  | nil => exact uri_runs_nil _
  | cons c cs ih =>
    refine uri_runs_cons (fun s uri => ?_) (ih (fun d hd => h d (List.mem_cons_of_mem c hd)))
    simp [RequestParser.consume_uri, h c (List.mem_cons_self c cs)]

theorem uri_runs_tail (a : UriState) (xs : List Char)
    (ha : a = uri_abs_path ∨ a = uri_query ∨ a = uri_fragment) :
    ∃ b, uri_runs a xs b := by
  induction xs generalizing a with
  | nil => exact ⟨a, uri_runs_nil a⟩
  | cons c cs ih =>
    rcases ha with rfl | rfl | rfl
    · by_cases h1 : c = '?'
      · obtain ⟨b, hb⟩ := ih uri_query (Or.inr (Or.inl rfl))
        exact ⟨b, uri_runs_cons (fun s uri => by simp [RequestParser.consume_uri, h1]) hb⟩
      · by_cases h2 : c = '#'
        · obtain ⟨b, hb⟩ := ih uri_fragment (Or.inr (Or.inr rfl))
          exact ⟨b, uri_runs_cons (fun s uri => by simp [RequestParser.consume_uri, h2]) hb⟩
        · obtain ⟨b, hb⟩ := ih uri_abs_path (Or.inl rfl)
          exact ⟨b, uri_runs_cons (fun s uri => by simp [RequestParser.consume_uri, h1, h2]) hb⟩
    · by_cases h2 : c = '#'
      · obtain ⟨b, hb⟩ := ih uri_fragment (Or.inr (Or.inr rfl))
        exact ⟨b, uri_runs_cons (fun s uri => by simp [RequestParser.consume_uri, h2]) hb⟩
      · obtain ⟨b, hb⟩ := ih uri_query (Or.inr (Or.inl rfl))
        exact ⟨b, uri_runs_cons (fun s uri => by simp [RequestParser.consume_uri, h2]) hb⟩
    · obtain ⟨b, hb⟩ := ih uri_fragment (Or.inr (Or.inr rfl))
      exact ⟨b, uri_runs_cons (fun s uri => by simp [RequestParser.consume_uri]) hb⟩

theorem uri_runs_path (a : UriState) (path : Option (List Char))
    (ha : a = uri_host ∨ a = uri_port) :
    ∃ b, uri_runs a (path_text path) b := by
  cases path with
  | none => exact ⟨a, uri_runs_nil a⟩
  | some rest =>
    obtain ⟨b, hb⟩ := uri_runs_tail uri_abs_path rest (Or.inl rfl)
    refine ⟨b, uri_runs_cons (fun s uri => ?_) hb⟩
    rcases ha with rfl | rfl
    · simp [RequestParser.consume_uri]
    · have : is_digit '/' = false := by decide
      simp [RequestParser.consume_uri, this]

theorem uri_runs_port_part (port : Option (List Char))
    (h : ∀ digits ∈ port, ∀ c ∈ digits, is_digit c = true) :
    ∃ a, (a = uri_host ∨ a = uri_port)
      ∧ uri_runs uri_host (port_text port) a := by
  cases port with
  | none => exact ⟨uri_host, Or.inl rfl, uri_runs_nil _⟩
  | some digits =>
    refine ⟨uri_port, Or.inr rfl,
      uri_runs_cons (fun s uri => ?_) (uri_runs_port digits (h digits rfl))⟩
    simp [RequestParser.consume_uri]

theorem uri_runs_request_uri (u : RequestUri) (h : u.well_formed = true) :
    ∃ b, uri_runs uri_start u.render b := by
  cases u with
  | path_only rest =>
    obtain ⟨b, hb⟩ := uri_runs_tail uri_abs_path rest (Or.inl rfl)
    exact ⟨b, uri_runs_cons (fun s uri => by simp [RequestParser.consume_uri]) hb⟩
  | absolute scheme host port path =>
    simp only [RequestUri.well_formed, Bool.and_eq_true, List.all_eq_true, Bool.not_eq_true',
      List.isEmpty_eq_false, bne_iff_ne, ne_eq] at h
    obtain ⟨⟨⟨⟨hne, hscheme⟩, hhost⟩, hport⟩, -⟩ := h
    obtain ⟨c, cs, rfl⟩ := List.exists_cons_of_ne_nil hne
    have hc := hscheme c (List.mem_cons_self c cs)
    have e1 : uri_runs uri_start (c :: cs) uri_scheme :=
      uri_runs_cons (fun s uri => by simp [RequestParser.consume_uri, hc, (is_alpha_ne hc).1])
        (uri_runs_scheme cs (fun d hd => hscheme d (List.mem_cons_of_mem c hd)))
    have e2 : uri_runs uri_scheme "://".toList uri_host := by
      have hcolon : is_alpha ':' = false := by decide
      have s3 : uri_runs uri_slash_shash ['/'] uri_host :=
        uri_runs_cons (fun s uri => by simp [RequestParser.consume_uri]) (uri_runs_nil _)
      have s2 : uri_runs uri_slash ['/', '/'] uri_host :=
        uri_runs_cons (fun s uri => by simp [RequestParser.consume_uri]) s3
      exact uri_runs_cons (fun s uri => by simp [RequestParser.consume_uri, hcolon]) s2
    have e3 : uri_runs uri_host host uri_host :=
      uri_runs_host host (fun d hd => ⟨(hhost d hd).1.2, (hhost d hd).2⟩)
    have e4 := uri_runs_port_part port (by
      intro digits hd
      rw [Option.mem_def] at hd
      subst hd
      simpa using hport)
    obtain ⟨a, ha, e4⟩ := e4
    obtain ⟨b, e5⟩ := uri_runs_path a path ha
    exact ⟨b, uri_runs_append (uri_runs_append (uri_runs_append (uri_runs_append e1 e2) e3) e4) e5⟩

theorem is_uri_of_is_alpha {c : Char} (h : is_alpha c = true) : is_uri c = true := by
  rw [← Char.ofNat_toNat c]
  simp only [is_alpha, Bool.or_eq_true, decide_eq_true_eq] at h
  generalize c.toNat = n at h
  rcases h with ⟨h1, h2⟩ | ⟨h1, h2⟩ <;> interval_cases n <;> decide

theorem is_uri_of_is_digit {c : Char} (h : is_digit c = true) : is_uri c = true := by
  rw [← Char.ofNat_toNat c]
  simp only [is_digit, decide_eq_true_eq] at h
  generalize c.toNat = n at h
  obtain ⟨h1, h2⟩ := h
  interval_cases n <;> decide

theorem render_all_is_uri (u : RequestUri) (h : u.well_formed = true) :
    ∀ c ∈ u.render, is_uri c = true := by
  cases u with
  | path_only rest =>
    simp only [RequestUri.well_formed, List.all_eq_true] at h
    intro c hc
    rcases List.mem_cons.mp hc with rfl | hc
    · decide
    · exact h c hc
  | absolute scheme host port path =>
    simp only [RequestUri.well_formed, Bool.and_eq_true, List.all_eq_true] at h
    obtain ⟨⟨⟨⟨-, hscheme⟩, hhost⟩, hport⟩, hpath⟩ := h
    intro c hc
    simp only [RequestUri.render, List.mem_append] at hc
    rcases hc with (((hc | hc) | hc) | hc) | hc
    · exact is_uri_of_is_alpha (hscheme c hc)
    · have : ∀ d ∈ "://".toList, is_uri d = true := by decide
      exact this c hc
    · exact (hhost c hc).1.1
    · cases port with
      | none => simp [port_text] at hc
      | some digits =>
        rcases List.mem_cons.mp hc with rfl | hc
        · decide
        · exact is_uri_of_is_digit (List.all_eq_true.mp hport c hc)
    · cases path with
      | none => simp [path_text] at hc
      | some rest =>
        rcases List.mem_cons.mp hc with rfl | hc
        · decide
        · exact List.all_eq_true.mp hpath c hc

theorem consume_uri_state (p : RequestParser) (uri : Uri) (c : Char) :
    (RequestParser.consume_uri p uri c).2.1.state_ = p.state_ := by
  obtain ⟨s, us⟩ := p
  cases us <;> simp only [RequestParser.consume_uri] <;> (try split_ifs) <;> rfl

theorem consume_uri_all (P : Char → Prop) (p : RequestParser) (uri : Uri) (c : Char)
    (h : uri.all P) (hc : P c) : (RequestParser.consume_uri p uri c).2.2.all P := by
  obtain ⟨s, us⟩ := p
  obtain ⟨h1, h2, h3, h4, h5, h6⟩ := h
  have app : ∀ xs : List Char, (∀ d ∈ xs, P d) → ∀ d ∈ xs ++ [c], P d := by
    intro xs hxs d hd
    rcases List.mem_append.mp hd with hd | hd
    · exact hxs d hd
    · rw [List.mem_singleton.mp hd]; exact hc
  cases us <;> simp only [RequestParser.consume_uri] <;> (try split_ifs) <;>
    first
    | exact ⟨h1, h2, h3, h4, h5, h6⟩
    | exact ⟨app _ h1, h2, h3, h4, h5, h6⟩
    | exact ⟨h1, app _ h2, h3, h4, h5, h6⟩
    | exact ⟨h1, h2, app _ h3, h4, h5, h6⟩
    | exact ⟨h1, h2, h3, app _ h4, h5, h6⟩
    | exact ⟨h1, h2, h3, h4, app _ h5, h6⟩
    | exact ⟨h1, h2, h3, h4, h5, app _ h6⟩

theorem feed_uri_all (P : Char → Prop) (p : RequestParser) (uri : Uri) (cs : List Char)
    (h : uri.all P) (hcs : ∀ c ∈ cs, P c) : (feed_uri p uri cs).2.2.all P := by
  induction cs generalizing p uri with
  | nil => exact h
  | cons c cs ih =>
    have e := ih (RequestParser.consume_uri p uri c).2.1 (RequestParser.consume_uri p uri c).2.2
      (consume_uri_all P p uri c h (hcs c (List.mem_cons_self c cs)))
      (fun d hd => hcs d (List.mem_cons_of_mem c hd))
    simpa [feed_uri] using e

theorem feed_req_uri (p : RequestParser) (r : Request) (cs : List Char)
    (hp : p.state_ = req_uri) (hm : r.method ≠ RequestMethod.UNDETERMINED)
    (hcs : ∀ c ∈ cs, is_uri c = true) :
    feed p r cs = Except.ok ((feed_uri p r.uri cs).1, (feed_uri p r.uri cs).2.1,
      { r with uri := (feed_uri p r.uri cs).2.2 }) := by
  induction cs generalizing p r with
  | nil => rfl
  | cons c cs ih =>
    have hc := hcs c (List.mem_cons_self c cs)
    have step : RequestParser.consume p r c
        = Except.ok ((RequestParser.consume_uri p r.uri c).1,
            (RequestParser.consume_uri p r.uri c).2.1,
            { r with uri := (RequestParser.consume_uri p r.uri c).2.2 }) := by
      simp [RequestParser.consume, hp, hm, hc]
    have e := ih (RequestParser.consume_uri p r.uri c).2.1
      { r with uri := (RequestParser.consume_uri p r.uri c).2.2 }
      (by rw [consume_uri_state, hp]) hm (fun d hd => hcs d (List.mem_cons_of_mem c hd))
    simp only [feed, step, e, feed_uri]

theorem runs_request_uri (m : RequestMethod) (v : HttpVersion) (hs : List Header)
    (u : RequestUri) (hm : m ≠ RequestMethod.UNDETERMINED) (hu : u.well_formed = true) :
    ∃ us uri2, runs ⟨req_uri, uri_start⟩ ⟨m, v, Uri.empty, hs⟩ u.render
        ⟨req_uri, us⟩ ⟨m, v, uri2, hs⟩
      ∧ uri2.all (fun c => is_uri c = true) := by
  obtain ⟨b, hb⟩ := uri_runs_request_uri u hu
  obtain ⟨uri2, e⟩ := hb req_uri Uri.empty
  have hall := feed_uri_all (fun c => is_uri c = true) ⟨req_uri, uri_start⟩ Uri.empty u.render
    (by simp [Uri.all, Uri.empty]) (render_all_is_uri u hu)
  rw [e] at hall
  refine ⟨b, uri2, ?_, hall⟩
  unfold runs
  rw [feed_req_uri _ _ _ rfl hm (render_all_is_uri u hu)]
  simp only [e]

theorem urldecode_of_all_is_uri (xs : List Char) (h : ∀ c ∈ xs, is_uri c = true) :
    urldecode xs = some xs := by
  induction xs with
  | nil => rfl
  | cons c cs ih =>
    have hc : c ≠ '%' := by
      rintro rfl
      exact absurd (h '%' (List.mem_cons_self _ _)) (by decide)
    rw [urldecode_cons_of_ne c cs hc, ih (fun d hd => h d (List.mem_cons_of_mem c hd))]
    rfl

theorem uri_decode_of_all_is_uri (uri : Uri) (h : uri.all (fun c => is_uri c = true)) :
    RequestParser.uri_decode uri = some uri := by
  obtain ⟨h1, h2, -, h4, h5, h6⟩ := h
  simp only [RequestParser.uri_decode, urldecode_of_all_is_uri _ h1,
    urldecode_of_all_is_uri _ h2, urldecode_of_all_is_uri _ h4, urldecode_of_all_is_uri _ h5,
    urldecode_of_all_is_uri _ h6]

theorem runs_uri_space (us : UriState) (r : Request)
    (hm : r.method ≠ RequestMethod.UNDETERMINED) (h : r.uri.all (fun c => is_uri c = true)) :
    runs ⟨req_uri, us⟩ r [' '] ⟨req_http_h, us⟩ r := by
  refine runs_cons ?_ (runs_nil _ _)
  have h1 : is_uri ' ' = false := by decide
  have h2 : is_sp ' ' = true := by decide
  simp [RequestParser.consume, hm, h1, h2, uri_decode_of_all_is_uri _ h]

theorem runs_version (us : UriState) (r : Request) (major minor : Char)
    (hmajor : is_digit major = true) (hminor : is_digit minor = true) :
    runs ⟨req_http_h, us⟩ r ("HTTP/".toList ++ [major, '.', minor] ++ "\r\n".toList)
      ⟨req_field_name_start, us⟩ (RequestParser.set_version r 1 (minor.toNat - 48)) := by
  have h1 : is_cr '\r' = true := by decide
  have h2 : is_lf '\n' = true := by decide
  unfold runs
  simp [feed, RequestParser.consume, RequestParser.expect, hmajor, hminor, h1, h2,
    List.replicate_succ]

theorem set_version_fields (m : RequestMethod) (v : HttpVersion) (u : Uri) (hs : List Header)
    (a b : Nat) : ∃ v2, RequestParser.set_version ⟨m, v, u, hs⟩ a b = ⟨m, v2, u, hs⟩ := by
  simp only [RequestParser.set_version]
  split_ifs <;> exact ⟨_, rfl⟩

theorem strip_lws_space (xs : List Char) : strip_lws (' ' :: xs) = strip_lws xs :=
  List.filter_cons_of_neg (by decide)

theorem runs_headers (st : ParserState) (us : UriState) (m : RequestMethod) (v : HttpVersion)
    (u : Uri) (hs lines : List Header)
    (hst : st = req_field_name_start ∨ st = req_header_lws)
    (h : ∀ x ∈ lines, x.well_formed = true) :
    ∃ st2, (st2 = req_field_name_start ∨ st2 = req_header_lws)
      ∧ runs ⟨st, us⟩ ⟨m, v, u, hs⟩ (lines.map header_line).flatten ⟨st2, us⟩
          ⟨m, v, u, hs ++ lines.map (fun x => ⟨x.name, strip_lws x.value⟩)⟩ := by
  induction lines generalizing st hs with
  | nil => exact ⟨st, hst, by simpa using runs_nil _ _⟩
  | cons x xs ih =>
    have hx := h x (List.mem_cons_self x xs)
    simp only [Header.well_formed, Bool.and_eq_true, List.all_eq_true, Bool.not_eq_true',
      List.isEmpty_eq_false] at hx
    obtain ⟨⟨hne, hname⟩, hval⟩ := hx
    have e1 := runs_header st us m v u hs x.name (' ' :: x.value) hst hne hname (by
      intro c hc
      rcases List.mem_cons.mp hc with rfl | hc
      · decide
      · exact hval c hc)
    rw [strip_lws_space] at e1
    obtain ⟨st2, hst2, e2⟩ := ih req_header_lws (hs ++ [⟨x.name, strip_lws x.value⟩])
      (Or.inr rfl) (fun y hy => h y (List.mem_cons_of_mem x hy))
    refine ⟨st2, hst2, ?_⟩
    have e := runs_append e1 e2
    simpa [header_line] using e

theorem feed_final_crlf (st : ParserState) (us : UriState) (r : Request)
    (hst : st = req_field_name_start ∨ st = req_header_lws) :
    feed ⟨st, us⟩ r "\r\n".toList
      = Except.ok ([in_progress, accept], ⟨req_header_end, us⟩, r) := by
  rcases hst with rfl | rfl <;> rfl

theorem runs_method (m0 m : RequestMethod) (v : HttpVersion)
    (hm : m ≠ RequestMethod.UNDETERMINED) :
    runs RequestParser.init (Request.fresh m0 v) (method_word m ++ [' '])
      ⟨req_uri, uri_start⟩ ⟨m, v, Uri.empty, []⟩ := by
  cases m <;> first | exact absurd rfl hm | rfl

theorem request_head_segments (m : RequestMethod) (u : RequestUri) (major minor : Char)
    (hs : List Header) :
    request_head m u major minor hs
      = method_word m ++ [' '] ++ u.render ++ [' ']
          ++ ("HTTP/".toList ++ [major, '.', minor] ++ "\r\n".toList)
          ++ (hs.map header_line).flatten ++ "\r\n".toList := by
  have e : " HTTP/".toList = ' ' :: "HTTP/".toList := rfl
  simp [request_head, e]

/-- C1, as amended: for a request head made of one of the nine method words,
a space, a request-URI in path-only or absolute form whose bytes are all in
`uri_charset`, a space, `HTTP/` digit `.` digit, CRLF, any number of
`name: value` CRLF header lines and a final CRLF, fed byte by byte to a fresh
parser and a fresh request, every call but the last returns in progress and
the last returns accept; the request then holds the method and the headers
in order. -/
theorem well_formed_head_accepted (m0 : RequestMethod) (v0 : HttpVersion) (m : RequestMethod)
    (u : RequestUri) (major minor : Char) (hs : List Header)
    (hm : m ≠ RequestMethod.UNDETERMINED) (hu : u.well_formed = true)
    (hmajor : is_digit major = true) (hminor : is_digit minor = true)
    (hhs : ∀ x ∈ hs, x.well_formed = true) :
    ∃ p r, feed RequestParser.init (Request.fresh m0 v0) (request_head m u major minor hs)
        = Except.ok (List.replicate ((request_head m u major minor hs).length - 1) in_progress
            ++ [accept], p, r)
      ∧ r.method = m
      ∧ r.headers = hs.map (fun x => ⟨x.name, strip_lws x.value⟩) := by
  have r1 := runs_method m0 m v0 hm
  obtain ⟨us, uri2, r2, hall⟩ := runs_request_uri m v0 [] u hm hu
  have r3 := runs_uri_space us ⟨m, v0, uri2, []⟩ hm hall
  have r4 := runs_version us ⟨m, v0, uri2, []⟩ major minor hmajor hminor
  obtain ⟨v2, hv⟩ := set_version_fields m v0 uri2 [] 1 (minor.toNat - 48)
  rw [hv] at r4
  obtain ⟨st2, hst2, r5⟩ := runs_headers req_field_name_start us m v2 uri2 [] hs (Or.inl rfl) hhs
  have r6 := feed_final_crlf st2 us
    ⟨m, v2, uri2, [] ++ hs.map (fun x => ⟨x.name, strip_lws x.value⟩)⟩ hst2
  have e := feed_append (runs_append (runs_append (runs_append (runs_append r1 r2) r3) r4) r5) r6
  refine ⟨⟨req_header_end, us⟩,
    ⟨m, v2, uri2, [] ++ hs.map (fun x => ⟨x.name, strip_lws x.value⟩)⟩, ?_, rfl, by simp⟩
  have key : ∀ xs : List Char,
      List.replicate xs.length in_progress ++ [in_progress, accept]
        = List.replicate ((xs ++ "\r\n".toList).length - 1) in_progress ++ [accept] := by
    intro xs
    have len : (xs ++ "\r\n".toList).length - 1 = xs.length + 1 := by
      rw [List.length_append]
      rfl
    rw [len, List.replicate_succ', List.append_assoc]
    rfl
  rw [request_head_segments, e, key]

/-- C1, at a request with an absolute request-URI and two header lines. -/
theorem well_formed_head_accepted_witness :
    ∃ p r, feed RequestParser.init (Request.fresh RequestMethod.UNDETERMINED HttpVersion.one_one)
        ("GET http://example.org:8080/index.html?x=1 HTTP/1.1\r\n".toList
          ++ "Host: example.org\r\nAccept: text/html, */*\r\n\r\n".toList)
        = Except.ok (List.replicate 97 in_progress ++ [accept], p, r)
      ∧ r.method = RequestMethod.GET
      ∧ r.headers = [⟨"Host".toList, "example.org".toList⟩,
          ⟨"Accept".toList, "text/html,*/*".toList⟩] :=
  well_formed_head_accepted RequestMethod.UNDETERMINED HttpVersion.one_one RequestMethod.GET
    (RequestUri.absolute "http".toList "example.org".toList (some "8080".toList)
      (some "index.html?x=1".toList))
    '1' '1'
    [⟨"Host".toList, "example.org".toList⟩, ⟨"Accept".toList, "text/html, */*".toList⟩]
    (by decide) (by decide) (by decide) (by decide) (by decide)

/-- C1, as stated, fails at `"OPTIONS * HTTP/1.1\r\n\r\n"`: the request-URI
`*` is rejected at the ninth call, so the calls before the last are not all
in progress. -/
theorem star_request_uri_rejected :
    feed RequestParser.init (Request.fresh RequestMethod.UNDETERMINED HttpVersion.one_one)
        "OPTIONS * HTTP/1.1\r\n\r\n".toList
      = Except.ok (List.replicate 8 in_progress ++ [reject] ++ List.replicate 12 in_progress
            ++ [accept],
          ⟨req_header_end, uri_start⟩,
          ⟨RequestMethod.OPTIONS, HttpVersion.one_one, Uri.empty, []⟩)
    ∧ ¬ ∃ p r,
      feed RequestParser.init (Request.fresh RequestMethod.UNDETERMINED HttpVersion.one_one)
          "OPTIONS * HTTP/1.1\r\n\r\n".toList
        = Except.ok (List.replicate 21 in_progress ++ [accept], p, r) := by
  have e : feed RequestParser.init
      (Request.fresh RequestMethod.UNDETERMINED HttpVersion.one_one)
      "OPTIONS * HTTP/1.1\r\n\r\n".toList
      = Except.ok (List.replicate 8 in_progress ++ [reject] ++ List.replicate 12 in_progress
            ++ [accept],
          ⟨req_header_end, uri_start⟩,
          ⟨RequestMethod.OPTIONS, HttpVersion.one_one, Uri.empty, []⟩) := rfl
  refine ⟨e, ?_⟩
  rintro ⟨p, r, h⟩
  rw [e] at h
  simp [List.replicate] at h

/-! ### Frame properties of the two parsers -/

/-- C16: after `consume(Uri&, c)` each of scheme, host, port, abs_path, query
and fragment is unchanged or is its previous value with `c` appended, and at
most one of the six fields has changed. -/
theorem uri_fields_append_only (p : RequestParser) (uri : Uri) (c : Char) :
    ((RequestParser.consume_uri p uri c).2.2.scheme = uri.scheme
      ∨ (RequestParser.consume_uri p uri c).2.2.scheme = uri.scheme ++ [c])
    ∧ ((RequestParser.consume_uri p uri c).2.2.host = uri.host
      ∨ (RequestParser.consume_uri p uri c).2.2.host = uri.host ++ [c])
    ∧ ((RequestParser.consume_uri p uri c).2.2.port = uri.port
      ∨ (RequestParser.consume_uri p uri c).2.2.port = uri.port ++ [c])
    ∧ ((RequestParser.consume_uri p uri c).2.2.abs_path = uri.abs_path
      ∨ (RequestParser.consume_uri p uri c).2.2.abs_path = uri.abs_path ++ [c])
    ∧ ((RequestParser.consume_uri p uri c).2.2.query = uri.query
      ∨ (RequestParser.consume_uri p uri c).2.2.query = uri.query ++ [c])
    ∧ ((RequestParser.consume_uri p uri c).2.2.fragment = uri.fragment
      ∨ (RequestParser.consume_uri p uri c).2.2.fragment = uri.fragment ++ [c])
    ∧ Uri.changed_fields uri (RequestParser.consume_uri p uri c).2.2 ≤ 1 := by
  obtain ⟨s, us⟩ := p
  cases us <;> simp only [RequestParser.consume_uri] <;> (try split_ifs) <;>
    simp [Uri.changed_fields]

theorem consume_uri_reject_unchanged (p : RequestParser) (uri : Uri) (c : Char)
    (h : (RequestParser.consume_uri p uri c).1 = reject) :
    (RequestParser.consume_uri p uri c).2 = (p, uri) := by
  obtain ⟨s, us⟩ := p
  revert h
  cases us <;> simp only [RequestParser.consume_uri] <;> (try split_ifs) <;> simp

theorem consume_reject_unchanged (p : RequestParser) (r : Request) (c : Char)
    (p2 : RequestParser) (r2 : Request)
    (h : RequestParser.consume p r c = Except.ok (reject, p2, r2)) : p2 = p ∧ r2 = r := by
  obtain ⟨st, us⟩ := p
  obtain ⟨m, v, u, hs⟩ := r
  cases st
  case req_uri =>
    simp only [RequestParser.consume] at h
    split_ifs at h with h1 h2 h3
    · have e := consume_uri_reject_unchanged ⟨req_uri, us⟩ u c
      generalize RequestParser.consume_uri ⟨req_uri, us⟩ u c = step at h e
      obtain ⟨s1, p1, u1⟩ := step
      simp only [Except.ok.injEq, Prod.mk.injEq] at h
      obtain ⟨rfl, rfl, rfl⟩ := h
      have := e rfl
      simp only [Prod.mk.injEq] at this
      simp [this.1, this.2]
    · revert h
      cases RequestParser.uri_decode u <;> simp
    · simpa [eq_comm] using h
  all_goals
    simp only [RequestParser.consume, RequestParser.expect, RequestParser.case_req_field_name,
      RequestParser.start_header, RequestParser.build_header_name,
      RequestParser.build_header_value, emplace_back_header] at h
    split_ifs at h <;> first | (cases h; exact ⟨rfl, rfl⟩) | (simp at h)

/-- C19: whenever `consume(Request&, char)` or `consume(Uri&, char)` returns
reject, the parser (state and URI sub-state) and the `Request`, or the `Uri`,
are what they were before the call. -/
theorem reject_is_atomic (p p2 : RequestParser) (r r2 : Request) (uri : Uri) (c : Char) :
    (RequestParser.consume p r c = Except.ok (reject, p2, r2) → p2 = p ∧ r2 = r)
    ∧ ((RequestParser.consume_uri p uri c).1 = reject →
        (RequestParser.consume_uri p uri c).2 = (p, uri)) :=
  ⟨consume_reject_unchanged p r c p2 r2, consume_uri_reject_unchanged p uri c⟩

/-- C19, at a version digit `x` in the request parser and at a `*` in the
start state of the URI parser. -/
theorem reject_is_atomic_witness :
    (RequestParser.consume ⟨req_http_major, uri_abs_path⟩
        ⟨RequestMethod.GET, HttpVersion.one_one, { Uri.empty with abs_path := ['/'] }, []⟩ 'x'
      = Except.ok (reject, ⟨req_http_major, uri_abs_path⟩,
          ⟨RequestMethod.GET, HttpVersion.one_one, { Uri.empty with abs_path := ['/'] }, []⟩)
      ∧ (RequestParser.consume_uri ⟨req_http_major, uri_start⟩ Uri.empty '*').1 = reject)
    ∧ (RequestParser.consume_uri ⟨req_http_major, uri_start⟩ Uri.empty '*').2
      = (⟨req_http_major, uri_start⟩, Uri.empty) :=
  ⟨⟨rfl, rfl⟩,
    (reject_is_atomic ⟨req_http_major, uri_start⟩ ⟨req_http_major, uri_start⟩
      ⟨RequestMethod.GET, HttpVersion.one_one, { Uri.empty with abs_path := ['/'] }, []⟩
      ⟨RequestMethod.GET, HttpVersion.one_one, { Uri.empty with abs_path := ['/'] }, []⟩
      Uri.empty '*').2 rfl⟩

/-- C20, at the input `"GET / HTTP/1.1\r\n:x"`: the `:` at the header-name
start is taken by the fall-through into the header-name case and moves the
parser to the header-value state with no header in the list; at the next byte
the assertion of `build_header_value` fails. -/
theorem colon_at_header_start_breaks_assertion (m : RequestMethod) (v : HttpVersion) :
    feed RequestParser.init (Request.fresh m v) "GET / HTTP/1.1\r\n:".toList
      = Except.ok (List.replicate 17 in_progress, ⟨req_field_value, uri_abs_path⟩,
          { method := RequestMethod.GET, version := HttpVersion.one_one,
            uri := { Uri.empty with abs_path := "/".toList }, headers := [] })
    ∧ feed RequestParser.init (Request.fresh m v) "GET / HTTP/1.1\r\n:x".toList
      = Except.error Fault.assertion_failed :=
  ⟨rfl, rfl⟩

/-! ### What a call depends on, and what it does to the headers -/

theorem consume_uri_status_state (p : RequestParser) (u1 u2 : Uri) (c : Char) :
    (RequestParser.consume_uri p u1 c).1 = (RequestParser.consume_uri p u2 c).1
    ∧ (RequestParser.consume_uri p u1 c).2.1 = (RequestParser.consume_uri p u2 c).2.1 := by
  obtain ⟨s, us⟩ := p
  cases us <;> simp only [RequestParser.consume_uri] <;> (try split_ifs) <;> simp

theorem start_header_eq (p : RequestParser) (r : Request) (c : Char) :
    RequestParser.start_header p r c
      = Except.ok (in_progress, { p with state_ := req_field_name },
          { r with headers := r.headers ++ [⟨[c], []⟩] }) := by
  simp [RequestParser.start_header, RequestParser.build_header_name, emplace_back_header,
    modify_back_append_singleton]

theorem agree_ite_congr {b1 b2 : Prop} [Decidable b1] [Decidable b2]
    {x1 x2 y1 y2 : Except Fault (ParseStatus × RequestParser × Request)} (hb : b1 ↔ b2)
    (h1 : b1 → returns_agree x1 y1) (h2 : ¬ b1 → returns_agree x2 y2) :
    returns_agree (if b1 then x1 else x2) (if b2 then y1 else y2) := by
  by_cases h : b1
  · rw [if_pos h, if_pos (hb.mp h)]; exact h1 h
  · rw [if_neg h, if_neg (fun k => h (hb.mpr k))]; exact h2 h

theorem agree_ok (s : ParseStatus) (p : RequestParser) (r1 r2 : Request) :
    returns_agree (Except.ok (s, p, r1)) (Except.ok (s, p, r2)) := by
  intro a b h1 h2
  simp only [outcome, Except.ok.injEq] at h1 h2
  rw [← h1, ← h2]

theorem agree_error (e : Fault) (y : Except Fault (ParseStatus × RequestParser × Request)) :
    returns_agree (Except.error e) y := by
  intro a b h1 _
  simp [outcome] at h1

theorem agree_in_progress (p : RequestParser) (x y : Except Fault Request) :
    returns_agree
      (match x with
        | Except.ok request => Except.ok (in_progress, p, request)
        | Except.error e => Except.error e)
      (match y with
        | Except.ok request => Except.ok (in_progress, p, request)
        | Except.error e => Except.error e) := by
  intro a b h1 h2
  cases x <;> cases y <;> simp only [outcome] at h1 h2 <;> cases h1 <;> (cases h2; try rfl)

theorem agree_case_req_field_name (p : RequestParser) (r1 r2 : Request) (c : Char) :
    returns_agree (RequestParser.case_req_field_name p r1 c)
      (RequestParser.case_req_field_name p r2 c) := by
  unfold RequestParser.case_req_field_name
  refine agree_ite_congr Iff.rfl (fun _ => agree_in_progress p _ _) (fun _ => ?_)
  exact agree_ite_congr Iff.rfl (fun _ => agree_ok _ _ _ _) (fun _ => agree_ok _ _ _ _)

theorem agree_uri_decode (p : RequestParser) (r1 r2 : Request) :
    returns_agree
      (match RequestParser.uri_decode r1.uri with
        | some uri => Except.ok (in_progress, p, { r1 with uri := uri })
        | none => Except.error Fault.undefined_behaviour)
      (match RequestParser.uri_decode r2.uri with
        | some uri => Except.ok (in_progress, p, { r2 with uri := uri })
        | none => Except.error Fault.undefined_behaviour) := by
  intro a b h1 h2
  cases d1 : RequestParser.uri_decode r1.uri <;>
    cases d2 : RequestParser.uri_decode r2.uri <;>
    simp only [d1, d2, outcome] at h1 h2 <;> cases h1 <;> (cases h2; try rfl)

theorem agree_consume_uri (p : RequestParser) (r1 r2 : Request) (c : Char) :
    returns_agree
      (match RequestParser.consume_uri p r1.uri c with
        | (status, p, uri) => Except.ok (status, p, { r1 with uri := uri }))
      (match RequestParser.consume_uri p r2.uri c with
        | (status, p, uri) => Except.ok (status, p, { r2 with uri := uri })) := by
  obtain ⟨e1, e2⟩ := consume_uri_status_state p r1.uri r2.uri c
  intro a b h1 h2
  simp only [outcome, Except.ok.injEq] at h1 h2
  rw [← h1, ← h2, e1, e2]

theorem agree_consume (p : RequestParser) (r1 r2 : Request) (c : Char)
    (hm : r1.method = RequestMethod.UNDETERMINED ↔ r2.method = RequestMethod.UNDETERMINED) :
    returns_agree (RequestParser.consume p r1 c) (RequestParser.consume p r2 c) := by
  obtain ⟨st, us⟩ := p
  generalize hx : RequestParser.consume ⟨st, us⟩ r1 c = x
  generalize hy : RequestParser.consume ⟨st, us⟩ r2 c = y
  cases st <;>
    simp only [RequestParser.consume, RequestParser.expect, start_header_eq] at hx hy <;>
    subst hx <;> subst hy
  case req_uri =>
    refine agree_ite_congr hm (fun _ => agree_error _ _) (fun _ => ?_)
    refine agree_ite_congr Iff.rfl (fun _ => agree_consume_uri _ r1 r2 c) (fun _ => ?_)
    exact agree_ite_congr Iff.rfl (fun _ => agree_uri_decode _ r1 r2)
      (fun _ => agree_ok _ _ _ _)
  case req_method =>
    refine agree_ite_congr Iff.rfl (fun _ => ?_) (fun _ => ?_)
    · refine agree_ite_congr hm (fun _ => ?_) (fun _ => agree_ok _ _ _ _)
      repeat (first | exact agree_ok _ _ _ _ | (apply agree_ite_congr Iff.rfl <;> intro _))
    · exact agree_ite_congr Iff.rfl (fun _ => agree_ok _ _ _ _) (fun _ => agree_ok _ _ _ _)
  case req_field_name_start =>
    refine agree_ite_congr Iff.rfl (fun _ => agree_ok _ _ _ _) (fun _ => ?_)
    exact agree_ite_congr Iff.rfl (fun _ => agree_ok _ _ _ _)
      (fun _ => agree_case_req_field_name _ r1 r2 c)
  case req_field_name => exact agree_case_req_field_name _ r1 r2 c
  case req_field_value =>
    refine agree_ite_congr Iff.rfl (fun _ => agree_ok _ _ _ _) (fun _ => ?_)
    refine agree_ite_congr Iff.rfl (fun _ => agree_ok _ _ _ _) (fun _ => ?_)
    exact agree_ite_congr Iff.rfl (fun _ => agree_in_progress _ _ _)
      (fun _ => agree_ok _ _ _ _)
  all_goals
    repeat (first | exact agree_ok _ _ _ _ | (apply agree_ite_congr Iff.rfl <;> intro _))

theorem consume_returns (p : RequestParser) (r : Request) (c : Char)
    (hs : p.state_ ≠ req_uri) (hh : r.headers ≠ []) :
    ∃ a, outcome (RequestParser.consume p r c) = Except.ok a := by
  obtain ⟨st, us⟩ := p
  have hl : ¬ r.headers.length = 0 := fun h => hh (List.length_eq_zero.mp h)
  cases st
  case req_uri => exact absurd rfl hs
  all_goals
    simp only [RequestParser.consume, RequestParser.expect, start_header_eq,
      RequestParser.case_req_field_name, RequestParser.build_header_name,
      RequestParser.build_header_value, if_neg hl]
    (try split_ifs) <;> exact ⟨_, rfl⟩

theorem modify_back_length {α : Type} (f : α → α) (xs : List α) :
    (modify_back f xs).length = xs.length := by
  rcases List.eq_nil_or_concat xs with rfl | ⟨ys, y, rfl⟩
  · rfl
  · rw [List.concat_eq_append, modify_back_append_singleton]; simp

theorem modify_back_dropLast {α : Type} (f : α → α) (xs : List α) :
    (modify_back f xs).dropLast = xs.dropLast := by
  rcases List.eq_nil_or_concat xs with rfl | ⟨ys, y, rfl⟩
  · rfl
  · rw [List.concat_eq_append, modify_back_append_singleton]; simp

theorem consume_headers_shape (p p2 : RequestParser) (r r2 : Request) (c : Char)
    (s : ParseStatus) (h : RequestParser.consume p r c = Except.ok (s, p2, r2)) :
    (((p.state_ = req_field_name_start ∨ p.state_ = req_header_lws) ∧ is_token c = true)
        ∧ r2.headers = r.headers ++ [⟨[c], []⟩])
    ∨ (¬ ((p.state_ = req_field_name_start ∨ p.state_ = req_header_lws) ∧ is_token c = true)
        ∧ (r2.headers = r.headers
          ∨ ∃ f : Header → Header, r2.headers = modify_back f r.headers)) := by
  obtain ⟨st, us⟩ := p
  obtain ⟨m, v, u, hs⟩ := r
  cases st
  case req_uri =>
    simp only [RequestParser.consume] at h
    split_ifs at h with h1 h2 h3
    · generalize RequestParser.consume_uri ⟨req_uri, us⟩ u c = step at h
      obtain ⟨s1, p1, u1⟩ := step
      cases h
      exact Or.inr ⟨by simp, Or.inl rfl⟩
    · cases hd : RequestParser.uri_decode u with
      | none => simp [hd] at h
      | some u2 =>
        simp only [hd] at h
        cases h
        exact Or.inr ⟨by simp, Or.inl rfl⟩
    · cases h
      exact Or.inr ⟨by simp, Or.inl rfl⟩
  case req_field_name_start =>
    simp only [RequestParser.consume, start_header_eq, RequestParser.case_req_field_name,
      RequestParser.build_header_name] at h
    split_ifs at h <;> first
      | (cases h; exact Or.inl ⟨⟨Or.inl rfl, by assumption⟩, rfl⟩)
      | (cases h
         refine Or.inr ⟨?_, Or.inl rfl⟩
         rintro ⟨-, ht⟩
         obtain ⟨e1, e2, e3, e4⟩ := is_token_facts ht
         simp_all)
  case req_header_lws =>
    simp only [RequestParser.consume, start_header_eq] at h
    split_ifs at h <;> first
      | (cases h; exact Or.inl ⟨⟨Or.inr rfl, by assumption⟩, rfl⟩)
      | (cases h
         refine Or.inr ⟨?_, Or.inl rfl⟩
         rintro ⟨-, ht⟩
         obtain ⟨e1, e2, e3, e4⟩ := is_token_facts ht
         simp_all)
  case req_http_minor =>
    simp only [RequestParser.consume] at h
    obtain ⟨v2, hv⟩ := set_version_fields m v u hs 1 (c.toNat - 48)
    rw [hv] at h
    split_ifs at h <;> cases h <;> exact Or.inr ⟨by simp, Or.inl rfl⟩
  case req_field_name =>
    simp only [RequestParser.consume, RequestParser.case_req_field_name,
      RequestParser.build_header_name] at h
    split_ifs at h <;> first
      | (cases h; exact Or.inr ⟨by simp, Or.inl rfl⟩)
      | (cases h; exact Or.inr ⟨by simp, Or.inr ⟨_, rfl⟩⟩)
  case req_field_value =>
    simp only [RequestParser.consume, RequestParser.build_header_value] at h
    split_ifs at h <;> first
      | (cases h; exact Or.inr ⟨by simp, Or.inl rfl⟩)
      | (cases h; exact Or.inr ⟨by simp, Or.inr ⟨_, rfl⟩⟩)
  all_goals
    simp only [RequestParser.consume, RequestParser.expect] at h
    split_ifs at h <;> first
      | (cases h; exact Or.inr ⟨by simp, Or.inl rfl⟩)

/-- C15, as stated, fails in state `req_method` at the byte `X`: a request
whose method is still undetermined is rejected, a request whose method is
`GET` is in progress. -/
theorem status_depends_on_method :
    RequestParser.consume ⟨req_method, uri_start⟩
        (Request.fresh RequestMethod.UNDETERMINED HttpVersion.one_one) 'X'
      = Except.ok (reject, ⟨req_method, uri_start⟩,
          Request.fresh RequestMethod.UNDETERMINED HttpVersion.one_one)
    ∧ RequestParser.consume ⟨req_method, uri_start⟩
        (Request.fresh RequestMethod.GET HttpVersion.one_one) 'X'
      = Except.ok (in_progress, ⟨req_method, uri_start⟩,
          Request.fresh RequestMethod.GET HttpVersion.one_one)
    ∧ outcome (RequestParser.consume ⟨req_method, uri_start⟩
        (Request.fresh RequestMethod.UNDETERMINED HttpVersion.one_one) 'X')
      ≠ outcome (RequestParser.consume ⟨req_method, uri_start⟩
        (Request.fresh RequestMethod.GET HttpVersion.one_one) 'X') := by
  refine ⟨rfl, rfl, fun h => ?_⟩
  have k : (Except.ok (reject, ⟨req_method, uri_start⟩) :
      Except Fault (ParseStatus × RequestParser))
      = Except.ok (in_progress, ⟨req_method, uri_start⟩) := h
  cases k

/-- C15, as amended: for two parsers in the same state whose requests agree
on whether the method is undetermined and are otherwise arbitrary, feeding
the same byte returns the same status and moves both to the same state,
whenever both calls return; and a call made outside the URI state with a
header present always returns. -/
theorem status_depends_on_state_byte_and_method (p : RequestParser) (r1 r2 : Request)
    (c : Char)
    (hm : r1.method = RequestMethod.UNDETERMINED ↔ r2.method = RequestMethod.UNDETERMINED) :
    (∀ (s1 s2 : ParseStatus) (p1 p2 : RequestParser) (q1 q2 : Request),
        RequestParser.consume p r1 c = Except.ok (s1, p1, q1) →
        RequestParser.consume p r2 c = Except.ok (s2, p2, q2) →
        s1 = s2 ∧ p1 = p2)
    ∧ (p.state_ ≠ req_uri → r1.headers ≠ [] →
        ∃ s1 p1 q1, RequestParser.consume p r1 c = Except.ok (s1, p1, q1)) := by
  refine ⟨fun s1 s2 p1 p2 q1 q2 h1 h2 => ?_, fun hs hh => ?_⟩
  · have k := agree_consume p r1 r2 c hm (s1, p1) (s2, p2) (by rw [h1]; rfl) (by rw [h2]; rfl)
    exact ⟨congrArg Prod.fst k, congrArg Prod.snd k⟩
  · obtain ⟨a, ha⟩ := consume_returns p r1 c hs hh
    cases hx : RequestParser.consume p r1 c with
    | error e => rw [hx] at ha; cases ha
    | ok x => exact ⟨x.1, x.2.1, x.2.2, rfl⟩

/-- C15, as amended, at the byte `z` in the header-value state with two
requests that differ in method, version, URI and headers: both calls are in
progress and stay in the header-value state. -/
theorem status_depends_on_state_byte_and_method_witness :
    RequestParser.consume ⟨req_field_value, uri_abs_path⟩
        ⟨RequestMethod.GET, HttpVersion.one_one, { Uri.empty with abs_path := "/a".toList },
          [⟨"Host".toList, "x".toList⟩]⟩ 'z'
      = Except.ok (in_progress, ⟨req_field_value, uri_abs_path⟩,
          ⟨RequestMethod.GET, HttpVersion.one_one, { Uri.empty with abs_path := "/a".toList },
            [⟨"Host".toList, "xz".toList⟩]⟩)
    ∧ RequestParser.consume ⟨req_field_value, uri_abs_path⟩
        ⟨RequestMethod.POST, HttpVersion.one_zero, { Uri.empty with abs_path := "/b%".toList },
          [⟨"A".toList, []⟩, ⟨"B".toList, []⟩]⟩ 'z'
      = Except.ok (in_progress, ⟨req_field_value, uri_abs_path⟩,
          ⟨RequestMethod.POST, HttpVersion.one_zero,
            { Uri.empty with abs_path := "/b%".toList },
            [⟨"A".toList, []⟩, ⟨"B".toList, "z".toList⟩]⟩)
    ∧ in_progress = in_progress
    ∧ (⟨req_field_value, uri_abs_path⟩ : RequestParser) = ⟨req_field_value, uri_abs_path⟩ :=
  ⟨rfl, rfl,
    (status_depends_on_state_byte_and_method ⟨req_field_value, uri_abs_path⟩
      ⟨RequestMethod.GET, HttpVersion.one_one, { Uri.empty with abs_path := "/a".toList },
        [⟨"Host".toList, "x".toList⟩]⟩
      ⟨RequestMethod.POST, HttpVersion.one_zero, { Uri.empty with abs_path := "/b%".toList },
        [⟨"A".toList, []⟩, ⟨"B".toList, []⟩]⟩ 'z' (by decide)).1
      in_progress in_progress ⟨req_field_value, uri_abs_path⟩ ⟨req_field_value, uri_abs_path⟩
      _ _ rfl rfl⟩

theorem runs_two_headers (us : UriState) (r : Request) (name v1 v2 : List Char)
    (hn : name ≠ []) (hname : ∀ c ∈ name, is_token c = true)
    (h1 : ∀ c ∈ v1, is_value_byte c = true) (h2 : ∀ c ∈ v2, is_value_byte c = true) :
    runs ⟨req_field_name_start, us⟩ r (header_line ⟨name, v1⟩ ++ header_line ⟨name, v2⟩)
      ⟨req_header_lws, us⟩
      { r with headers := r.headers ++ [⟨name, strip_lws v1⟩, ⟨name, strip_lws v2⟩] } := by
  obtain ⟨m, v, u, hs⟩ := r
  have sp : ∀ w : List Char, (∀ c ∈ w, is_value_byte c = true) →
      ∀ c ∈ ' ' :: w, is_value_byte c = true := by
    intro w hw c hc
    rcases List.mem_cons.mp hc with rfl | hc
    · decide
    · exact hw c hc
  have e1 := runs_header req_field_name_start us m v u hs name (' ' :: v1) (Or.inl rfl) hn
    hname (sp v1 h1)
  have e2 := runs_header req_header_lws us m v u (hs ++ [⟨name, strip_lws (' ' :: v1)⟩]) name
    (' ' :: v2) (Or.inr rfl) hn hname (sp v2 h2)
  rw [strip_lws_space] at e1 e2
  simpa [header_line] using runs_append e1 e2

/-- C17: a call of `consume(Request&, char)` that returns leaves every header
but the last as it was and removes none; it appends a header, with the byte
as its name and an empty value, exactly when a token byte arrives at a
header-name start (the states `req_field_name_start` and `req_header_lws`);
and two header lines with the same name give two entries in arrival order. -/
theorem headers_kept_in_arrival_order :
    (∀ (p p2 : RequestParser) (r r2 : Request) (c : Char) (s : ParseStatus),
      RequestParser.consume p r c = Except.ok (s, p2, r2) →
        r.headers.dropLast <+: r2.headers
        ∧ (r2.headers.length = r.headers.length ∨ r2.headers = r.headers ++ [⟨[c], []⟩])
        ∧ (r2.headers = r.headers ++ [⟨[c], []⟩] ↔
            (p.state_ = req_field_name_start ∨ p.state_ = req_header_lws)
              ∧ is_token c = true))
    ∧ (∀ (us : UriState) (r : Request) (name v1 v2 : List Char),
        name ≠ [] → (∀ c ∈ name, is_token c = true) →
        (∀ c ∈ v1, is_value_byte c = true) → (∀ c ∈ v2, is_value_byte c = true) →
        feed ⟨req_field_name_start, us⟩ r (header_line ⟨name, v1⟩ ++ header_line ⟨name, v2⟩)
          = Except.ok
              (List.replicate (header_line ⟨name, v1⟩ ++ header_line ⟨name, v2⟩).length
                in_progress,
               ⟨req_header_lws, us⟩,
               { r with
                 headers := r.headers ++ [⟨name, strip_lws v1⟩, ⟨name, strip_lws v2⟩] })) := by
  refine ⟨?_, fun us r name v1 v2 hn hname h1 h2 => runs_two_headers us r name v1 v2 hn hname h1 h2⟩
  intro p p2 r r2 c s h
  rcases consume_headers_shape p p2 r r2 c s h with ⟨hc, e⟩ | ⟨hc, e | ⟨f, e⟩⟩
  · rw [e]
    exact ⟨(List.dropLast_prefix _).trans (List.prefix_append _ _), Or.inr rfl,
      ⟨fun _ => hc, fun _ => rfl⟩⟩
  · rw [e]
    refine ⟨List.dropLast_prefix _, Or.inl rfl, ⟨fun k => ?_, fun k => absurd k hc⟩⟩
    have := congrArg List.length k
    simp at this
  · rw [e]
    refine ⟨?_, Or.inl (modify_back_length f _), ⟨fun k => ?_, fun k => absurd k hc⟩⟩
    · rw [← modify_back_dropLast f r.headers]
      exact List.dropLast_prefix _
    · have := congrArg List.length k
      rw [modify_back_length] at this
      simp at this

/-- C17, at a second header line `A: 2` after a first `A: 1`. -/
theorem headers_kept_in_arrival_order_witness :
    feed ⟨req_field_name_start, uri_abs_path⟩
        ⟨RequestMethod.GET, HttpVersion.one_one, Uri.empty, []⟩ "A: 1\r\nA: 2\r\n".toList
      = Except.ok (List.replicate 12 in_progress, ⟨req_header_lws, uri_abs_path⟩,
          ⟨RequestMethod.GET, HttpVersion.one_one, Uri.empty,
            [⟨"A".toList, "1".toList⟩, ⟨"A".toList, "2".toList⟩]⟩)
    ∧ [(⟨"A".toList, "1".toList⟩ : Header)].dropLast
        <+: [⟨"A".toList, "1".toList⟩, ⟨"A".toList, []⟩] :=
  ⟨headers_kept_in_arrival_order.2 uri_abs_path
      ⟨RequestMethod.GET, HttpVersion.one_one, Uri.empty, []⟩ "A".toList "1".toList "2".toList
      (by decide) (by decide) (by decide) (by decide),
   (headers_kept_in_arrival_order.1 ⟨req_header_lws, uri_abs_path⟩
      ⟨req_field_name, uri_abs_path⟩
      ⟨RequestMethod.GET, HttpVersion.one_one, Uri.empty, [⟨"A".toList, "1".toList⟩]⟩
      ⟨RequestMethod.GET, HttpVersion.one_one, Uri.empty,
        [⟨"A".toList, "1".toList⟩, ⟨"A".toList, []⟩]⟩ 'A' in_progress rfl).1⟩

/-! ### The routing tables -/

theorem find_from_insert {α : Type} (t : Trie α) (path : List Char) (v : α)
    (up : List (Option α)) :
    ∃ up2, (t.insert path v).find_from path up = some (some v, up2) := by
  induction path generalizing t up with
  | nil => cases t <;> exact ⟨up, rfl⟩
  | cons c cs ih =>
    cases t with
    | absent =>
      obtain ⟨up2, e⟩ := ih Trie.absent (none :: up)
      exact ⟨up2, by simp [Trie.insert, Trie.find_from, e]⟩
    | node value children =>
      obtain ⟨up2, e⟩ := ih (children c) (value :: up)
      exact ⟨up2, by simp [Trie.insert, Trie.find_from, e]⟩

theorem find_insert {α : Type} (t : Trie α) (path : List Char) (v : α) :
    ∃ up, (t.insert path v).find path = some (some v, up) :=
  find_from_insert t path v []

theorem nine_tables {α : Type} (l : List α) (h : 9 ≤ l.length) :
    ∃ t0 t1 t2 t3 t4 t5 t6 t7 t8 rest,
      l = t0 :: t1 :: t2 :: t3 :: t4 :: t5 :: t6 :: t7 :: t8 :: rest := by
  rcases l with _ | ⟨t0, _ | ⟨t1, _ | ⟨t2, _ | ⟨t3, _ | ⟨t4, _ | ⟨t5, _ | ⟨t6, _ | ⟨t7,
    _ | ⟨t8, rest⟩⟩⟩⟩⟩⟩⟩⟩⟩
  case cons.cons.cons.cons.cons.cons.cons.cons.cons =>
    exact ⟨t0, t1, t2, t3, t4, t5, t6, t7, t8, rest, rfl⟩
  all_goals simp at h

theorem use_indices_eq : use_indices = [0, 1, 2, 3, 4, 5, 6, 7, 8] := rfl

theorem summer_use_nine (p : List Char) (h : Handler)
    (t0 t1 t2 t3 t4 t5 t6 t7 t8 : Trie Handler) (rest : List (Trie Handler)) :
    Summer.Router.use ⟨t0 :: t1 :: t2 :: t3 :: t4 :: t5 :: t6 :: t7 :: t8 :: rest⟩ p h
      = Except.ok ⟨t0.insert p h :: t1.insert p h :: t2.insert p h :: t3.insert p h
          :: t4.insert p h :: t5.insert p h :: t6.insert p h :: t7.insert p h
          :: t8.insert p h :: rest⟩ := by
  simp [Summer.Router.use, use_indices_eq, Summer.Router.use_loop, Summer.Router.handle,
    to_underlying_t, RequestMethod.of_underlying]

theorem construct_cons (c : Int) (h0 : c < INT_MAX) (f : Callable) (fs : List Callable) :
    Handler.construct c (f :: fs) = Except.ok (c + 1, ⟨f :: fs, some (c + 1)⟩) := by
  simp [Handler.construct, h0]

theorem theros_use_nine (c : Int) (hc : c + 9 ≤ INT_MAX) (p : List Char) (f : Callable)
    (fs : List Callable) (t0 t1 t2 t3 t4 t5 t6 t7 t8 : Trie Handler)
    (rest : List (Trie Handler)) :
    Router.use c ⟨t0 :: t1 :: t2 :: t3 :: t4 :: t5 :: t6 :: t7 :: t8 :: rest⟩ p (f :: fs)
      = Except.ok (c + 9, ⟨t0.insert p ⟨f :: fs, some (c + 1)⟩
          :: t1.insert p ⟨f :: fs, some (c + 2)⟩ :: t2.insert p ⟨f :: fs, some (c + 3)⟩
          :: t3.insert p ⟨f :: fs, some (c + 4)⟩ :: t4.insert p ⟨f :: fs, some (c + 5)⟩
          :: t5.insert p ⟨f :: fs, some (c + 6)⟩ :: t6.insert p ⟨f :: fs, some (c + 7)⟩
          :: t7.insert p ⟨f :: fs, some (c + 8)⟩ :: t8.insert p ⟨f :: fs, some (c + 9)⟩
          :: rest⟩) := by
  have h0 : c < INT_MAX := by omega
  have h1 : c + 1 < INT_MAX := by omega
  have h2 : c + 1 + 1 < INT_MAX := by omega
  have h3 : c + 1 + 1 + 1 < INT_MAX := by omega
  have h4 : c + 1 + 1 + 1 + 1 < INT_MAX := by omega
  have h5 : c + 1 + 1 + 1 + 1 + 1 < INT_MAX := by omega
  have h6 : c + 1 + 1 + 1 + 1 + 1 + 1 < INT_MAX := by omega
  have h7 : c + 1 + 1 + 1 + 1 + 1 + 1 + 1 < INT_MAX := by omega
  have h8 : c + 1 + 1 + 1 + 1 + 1 + 1 + 1 + 1 < INT_MAX := by omega
  simp [Router.use, use_indices_eq, Router.use_loop, Router.handle, Handler.construct,
    to_underlying_t, RequestMethod.of_underlying, h0, h1, h2, h3, h4, h5, h6, h7, h8]
  simp [add_assoc]

theorem finds_insert (t : Trie Handler) (path : List Char) (h : Handler) :
    ∃ t2 up, t.insert path h = t2 ∧ t2.find path = some (some h, up) := by
  obtain ⟨up, e⟩ := find_insert t path h
  exact ⟨_, up, rfl, e⟩

theorem theros_handle_eq (c : Int) (h0 : c < INT_MAX) (tables : List (Trie Handler))
    (m : RequestMethod) (t : Trie Handler) (path : List Char) (f : Callable)
    (fs : List Callable) (ht : tables[to_underlying_t m]? = some t) :
    Router.handle c ⟨tables⟩ m path (f :: fs)
      = Except.ok (c + 1,
          ⟨tables.set (to_underlying_t m) (t.insert path ⟨f :: fs, some (c + 1)⟩)⟩) := by
  simp [Router.handle, Handler.construct, h0, ht]

/-- C14: `Router::use(path, handler)` inserts at `path` into the table of
every method from `GET` to `PATCH`, so that a lookup of `path` succeeds in
each of them afterwards, and `get`, `post` and `put` insert into the table of
`GET`, `POST` and `PUT` and leave every other table as it was; both for the
functions of Router.cpp, which take a `Handler`, and for the templates of
Router.h called with callables, which build the `Handler` from them while the
`int` counter has room. -/
theorem use_inserts_into_every_table (r : Router) (path : List Char) (h : Handler) (c : Int)
    (fs : List Callable) (hlen : 9 ≤ r.routing_tables.length) :
    (∃ r2, Summer.Router.use r path h = Except.ok r2
      ∧ ∀ m, m ≠ RequestMethod.UNDETERMINED → r2.finds m path h)
    ∧ (∃ r2, Summer.Router.get r path h = Except.ok r2
      ∧ r2.finds RequestMethod.GET path h
      ∧ ∀ m, m ≠ RequestMethod.GET → r.same_table r2 m)
    ∧ (∃ r2, Summer.Router.post r path h = Except.ok r2
      ∧ r2.finds RequestMethod.POST path h
      ∧ ∀ m, m ≠ RequestMethod.POST → r.same_table r2 m)
    ∧ (∃ r2, Summer.Router.put r path h = Except.ok r2
      ∧ r2.finds RequestMethod.PUT path h
      ∧ ∀ m, m ≠ RequestMethod.PUT → r.same_table r2 m)
    ∧ (fs ≠ [] → c + 9 ≤ INT_MAX →
        ∃ r2, Router.use c r path fs = Except.ok (c + 9, r2)
          ∧ ∀ m, m ≠ RequestMethod.UNDETERMINED →
              r2.finds m path ⟨fs, some (c + (to_underlying_t m : Int) + 1)⟩)
    ∧ (fs ≠ [] → c < INT_MAX →
        ∃ r2, Router.get c r path fs = Except.ok (c + 1, r2)
          ∧ r2.finds RequestMethod.GET path ⟨fs, some (c + 1)⟩
          ∧ ∀ m, m ≠ RequestMethod.GET → r.same_table r2 m)
    ∧ (fs ≠ [] → c < INT_MAX →
        ∃ r2, Router.post c r path fs = Except.ok (c + 1, r2)
          ∧ r2.finds RequestMethod.POST path ⟨fs, some (c + 1)⟩
          ∧ ∀ m, m ≠ RequestMethod.POST → r.same_table r2 m)
    ∧ (fs ≠ [] → c < INT_MAX →
        ∃ r2, Router.put c r path fs = Except.ok (c + 1, r2)
          ∧ r2.finds RequestMethod.PUT path ⟨fs, some (c + 1)⟩
          ∧ ∀ m, m ≠ RequestMethod.PUT → r.same_table r2 m) := by
  obtain ⟨tables⟩ := r
  obtain ⟨t0, t1, t2, t3, t4, t5, t6, t7, t8, rest, rfl⟩ := nine_tables tables hlen
  refine ⟨⟨_, summer_use_nine path h t0 t1 t2 t3 t4 t5 t6 t7 t8 rest, ?_⟩,
    ⟨_, rfl, ?_, ?_⟩, ⟨_, rfl, ?_, ?_⟩, ⟨_, rfl, ?_, ?_⟩, ?_, ?_, ?_, ?_⟩
  · intro m hm
    cases m <;> first
      | exact absurd rfl hm
      | (simp only [Router.finds, to_underlying_t, List.getElem?_cons_succ,
          List.getElem?_cons_zero, Option.some.injEq, exists_eq_left']
         exact finds_insert _ path h)
  · simp only [Router.finds, to_underlying_t, List.set, List.getElem?_cons_succ,
      List.getElem?_cons_zero, Option.some.injEq, exists_eq_left']
    exact finds_insert _ path h
  · intro m hm
    cases m <;> first | exact absurd rfl hm | rfl
  · simp only [Router.finds, to_underlying_t, List.set, List.getElem?_cons_succ,
      List.getElem?_cons_zero, Option.some.injEq, exists_eq_left']
    exact finds_insert _ path h
  · intro m hm
    cases m <;> first | exact absurd rfl hm | rfl
  · simp only [Router.finds, to_underlying_t, List.set, List.getElem?_cons_succ,
      List.getElem?_cons_zero, Option.some.injEq, exists_eq_left']
    exact finds_insert _ path h
  · intro m hm
    cases m <;> first | exact absurd rfl hm | rfl
  · intro hfs hc
    obtain ⟨f, gs, rfl⟩ := List.exists_cons_of_ne_nil hfs
    refine ⟨_, theros_use_nine c hc path f gs t0 t1 t2 t3 t4 t5 t6 t7 t8 rest, ?_⟩
    intro m hm
    cases m <;> first
      | exact absurd rfl hm
      | (simp only [Router.finds, to_underlying_t, List.getElem?_cons_succ,
          List.getElem?_cons_zero, Option.some.injEq, exists_eq_left', Nat.cast_ofNat,
          Nat.cast_zero, Nat.cast_one, add_zero, add_assoc, Int.reduceAdd]
         exact finds_insert _ path _)
  · intro hfs h0
    obtain ⟨f, gs, rfl⟩ := List.exists_cons_of_ne_nil hfs
    refine ⟨_, theros_handle_eq c h0 _ RequestMethod.GET t0 path f gs rfl, ?_, ?_⟩
    · simp only [Router.finds, to_underlying_t, List.set, List.getElem?_cons_succ,
        List.getElem?_cons_zero, Option.some.injEq, exists_eq_left']
      exact finds_insert _ path _
    · intro m hm
      cases m <;> first | exact absurd rfl hm | rfl
  · intro hfs h0
    obtain ⟨f, gs, rfl⟩ := List.exists_cons_of_ne_nil hfs
    refine ⟨_, theros_handle_eq c h0 _ RequestMethod.POST t2 path f gs rfl, ?_, ?_⟩
    · simp only [Router.finds, to_underlying_t, List.set, List.getElem?_cons_succ,
        List.getElem?_cons_zero, Option.some.injEq, exists_eq_left']
      exact finds_insert _ path _
    · intro m hm
      cases m <;> first | exact absurd rfl hm | rfl
  · intro hfs h0
    obtain ⟨f, gs, rfl⟩ := List.exists_cons_of_ne_nil hfs
    refine ⟨_, theros_handle_eq c h0 _ RequestMethod.PUT t3 path f gs rfl, ?_, ?_⟩
    · simp only [Router.finds, to_underlying_t, List.set, List.getElem?_cons_succ,
        List.getElem?_cons_zero, Option.some.injEq, exists_eq_left']
      exact finds_insert _ path _
    · intro m hm
      cases m <;> first | exact absurd rfl hm | rfl

/-- C14, at a fresh router of nine tables: `use` with a handler, and `use`
with one callable from the counter's initial value 0. -/
theorem use_inserts_into_every_table_witness :
    (∃ r2, Summer.Router.use (Router.init 9) "/api".toList ⟨[7], some 1⟩ = Except.ok r2
      ∧ ∀ m, m ≠ RequestMethod.UNDETERMINED → r2.finds m "/api".toList ⟨[7], some 1⟩)
    ∧ (∃ r2, Router.use 0 (Router.init 9) "/api".toList [7] = Except.ok (0 + 9, r2)
      ∧ ∀ m, m ≠ RequestMethod.UNDETERMINED →
          r2.finds m "/api".toList ⟨[7], some (0 + (to_underlying_t m : Int) + 1)⟩) :=
  ⟨(use_inserts_into_every_table (Router.init 9) "/api".toList ⟨[7], some 1⟩ 0 [7]
      (by decide)).1,
   (use_inserts_into_every_table (Router.init 9) "/api".toList ⟨[7], some 1⟩ 0 [7]
      (by decide)).2.2.2.2.1 (by decide) (by decide)⟩

theorem resolve_loop_enough (fuel : Nat) (found : TrieIterator Handler) (route : List Handler)
    (h : TrieIterator.depth found ≤ fuel) :
    Summer.Router.resolve_loop fuel found route
      = route ++ TrieIterator.walk Handler.default_ found := by
  induction fuel generalizing found route with
  | zero =>
    cases found with
    | none => simp [Summer.Router.resolve_loop, TrieIterator.walk]
    | some x => simp [TrieIterator.depth] at h
  | succ n ih =>
    cases found with
    | none => simp [Summer.Router.resolve_loop, TrieIterator.walk]
    | some x =>
      obtain ⟨v, up⟩ := x
      cases up with
      | nil =>
        simp [Summer.Router.resolve_loop, TrieIterator.decrement, TrieIterator.walk,
          TrieIterator.deref]
      | cons parent up =>
        have hd : TrieIterator.depth (some (parent, up)) ≤ n := by
          simp only [TrieIterator.depth, List.length_cons] at h ⊢
          omega
        simp only [Summer.Router.resolve_loop, TrieIterator.decrement]
        rw [ih _ _ hd]
        simp [TrieIterator.walk, TrieIterator.deref]

theorem nodes_on_path_cons {α : Type} (d : α) (value : Option α) (children : Char → Trie α)
    (c : Char) (cs : List Char) :
    (Trie.node value children).nodes_on_path d (c :: cs)
      = value.getD d :: (children c).nodes_on_path d cs := by
  simp only [Trie.nodes_on_path, List.inits_cons, List.map_cons, Trie.lookup, List.map_map]
  rfl

theorem find_from_spec {α : Type} (d : α) (t : Trie α) (path : List Char)
    (up : List (Option α)) :
    TrieIterator.depth (t.find_from path up) ≤ path.length + up.length + 1
    ∧ (TrieIterator.walk d (t.find_from path up)).reverse
      = if (t.lookup path).isSome
        then (up.map (fun x => x.getD d)).reverse ++ t.nodes_on_path d path else [] := by
  induction path generalizing t up with
  | nil =>
    cases t with
    | absent => simp [Trie.find_from, Trie.lookup, TrieIterator.depth, TrieIterator.walk]
    | node value children =>
      cases value <;>
        simp [Trie.find_from, Trie.lookup, TrieIterator.depth, TrieIterator.walk,
          Trie.nodes_on_path]
  | cons c cs ih =>
    cases t with
    | absent => simp [Trie.find_from, Trie.lookup, TrieIterator.depth, TrieIterator.walk]
    | node value children =>
      obtain ⟨h1, h2⟩ := ih (children c) (value :: up)
      refine ⟨?_, ?_⟩
      · simp only [Trie.find_from, List.length_cons] at h1 ⊢
        omega
      · simp only [Trie.find_from, Trie.lookup, nodes_on_path_cons]
        rw [h2]
        simp

theorem resolve_spec (r : Router) (m : RequestMethod) (path : List Char) (t : Trie Handler)
    (ht : r.routing_tables[to_underlying_t m]? = some t) :
    Summer.Router.resolve r m path
      = Except.ok (if (t.lookup path).isSome
          then t.nodes_on_path Handler.default_ path else []) := by
  obtain ⟨h1, h2⟩ := find_from_spec Handler.default_ t path []
  have hd : TrieIterator.depth (t.find path) ≤ path.length + 1 := by
    simpa [Trie.find] using h1
  simp only [Summer.Router.resolve, ht]
  rw [resolve_loop_enough _ _ _ hd]
  simpa [Trie.find] using h2

theorem init_add_nine (n : Nat) :
    Router.init (n + 9)
      = ⟨Trie.empty :: Trie.empty :: Trie.empty :: Trie.empty :: Trie.empty :: Trie.empty
          :: Trie.empty :: Trie.empty :: Trie.empty :: List.replicate n Trie.empty⟩ :=
  rfl

theorem summer_handle_eq (tables : List (Trie Handler)) (m : RequestMethod)
    (t : Trie Handler) (path : List Char) (h : Handler)
    (ht : tables[to_underlying_t m]? = some t) :
    Summer.Router.handle ⟨tables⟩ m path h
      = Except.ok ⟨tables.set (to_underlying_t m) (t.insert path h)⟩ := by
  simp [Summer.Router.handle, ht]

theorem resolve_get_eq (t0 : Trie Handler) (rest : List (Trie Handler)) (path : List Char)
    (route : List Handler)
    (h : (Summer.Router.resolve_loop (path.length + 1) (t0.find path) []).reverse = route) :
    Summer.Router.resolve ⟨t0 :: rest⟩ RequestMethod.GET path = Except.ok route := by
  simp [Summer.Router.resolve, to_underlying_t, h]

/-- C12: when `find` on the table of the method returns `end()` for the path,
`Router::resolve(method, path)` returns the empty sequence. -/
theorem resolve_no_match_empty (r : Router) (m : RequestMethod) (path : List Char)
    (t : Trie Handler) (ht : r.routing_tables[to_underlying_t m]? = some t)
    (hf : t.find path = Trie.end_) :
    Summer.Router.resolve r m path = Except.ok [] := by
  simp only [Summer.Router.resolve, ht, hf, Trie.end_, Summer.Router.resolve_loop,
    List.reverse_nil]

/-- C12, at the path `"/api/u"` in a table that holds `"/api"` and
`"/api/users"`: the node exists, but no handler is stored at it. -/
theorem resolve_no_match_empty_witness :
    Summer.Router.resolve
        ⟨[(Trie.empty.insert "/api".toList (⟨[1], some 1⟩ : Handler)).insert
            "/api/users".toList ⟨[2], some 2⟩]⟩
        RequestMethod.GET "/api/u".toList
      = Except.ok [] :=
  resolve_no_match_empty
    ⟨[(Trie.empty.insert "/api".toList (⟨[1], some 1⟩ : Handler)).insert "/api/users".toList
        ⟨[2], some 2⟩]⟩
    RequestMethod.GET "/api/u".toList
    ((Trie.empty.insert "/api".toList (⟨[1], some 1⟩ : Handler)).insert "/api/users".toList
      ⟨[2], some 2⟩)
    rfl rfl

/-- C13, at a router with `H` registered at `"/x"` by `get` and a request
`GET /x`: `resolve(GET, "/x")` finds the path and returns a sequence that
ends in `H`, after the two `Handler()` of the nodes above it, but
`resolve(request)` is empty. -/
theorem resolve_request_always_empty (n : Nat) (H : Handler) (v : HttpVersion) :
    ∃ r, Summer.Router.get (Router.init (n + 9)) "/x".toList H = Except.ok r
      ∧ Summer.Router.resolve r RequestMethod.GET "/x".toList
        = Except.ok [Handler.default_, Handler.default_, H]
      ∧ Summer.Router.resolve_request r
          ⟨RequestMethod.GET, v, { Uri.empty with abs_path := "/x".toList }, []⟩
        = Except.ok [] := by
  refine ⟨_, summer_handle_eq _ RequestMethod.GET _ _ _ rfl, resolve_get_eq _ _ _ _ rfl, ?_⟩
  simp [Summer.Router.resolve_request, to_underlying_t, Router.init]

theorem construct_all_spec (c : Int) (fss : List (List Callable))
    (hne : ∀ fs ∈ fss, fs ≠ []) (hc : c + fss.length ≤ INT_MAX) :
    ∃ hs, Handler.construct_all c fss = Except.ok (c + fss.length, hs)
      ∧ hs.map (fun h => h.handler_) = fss
      ∧ hs.Pairwise (fun a b => ∃ x y, a.handler_id_ = some x ∧ b.handler_id_ = some y ∧ x < y)
      ∧ ∀ h ∈ hs, ∃ x, h.handler_id_ = some x ∧ c < x ∧ x ≤ c + fss.length := by
  induction fss generalizing c with
  | nil => exact ⟨[], by simp [Handler.construct_all], rfl, List.Pairwise.nil, by simp⟩
  | cons fs rest ih =>
    simp only [List.length_cons, Nat.cast_add, Nat.cast_one] at hc
    have h0 : c < INT_MAX := by omega
    obtain ⟨f, gs, rfl⟩ := List.exists_cons_of_ne_nil (hne fs (List.mem_cons_self _ _))
    obtain ⟨hs, e, hmap, hpair, hmem⟩ :=
      ih (c + 1) (fun x hx => hne x (List.mem_cons_of_mem _ hx)) (by omega)
    refine ⟨⟨f :: gs, some (c + 1)⟩ :: hs, ?_, ?_, ?_, ?_⟩
    · simp only [Handler.construct_all, construct_cons c h0, e, List.length_cons,
        Nat.cast_add, Nat.cast_one]
      congr 2
      ring
    · simp [hmap]
    · refine List.Pairwise.cons ?_ hpair
      intro h hh
      obtain ⟨x, ex, lo, -⟩ := hmem h hh
      exact ⟨c + 1, x, rfl, ex, lo⟩
    · intro h hh
      simp only [List.length_cons, Nat.cast_add, Nat.cast_one]
      rcases List.mem_cons.mp hh with rfl | hh
      · exact ⟨c + 1, rfl, by omega, by omega⟩
      · obtain ⟨x, ex, a, b⟩ := hmem h hh
        exact ⟨x, ex, by omega, by omega⟩

/-- C18: while the `int` counter has room, the handlers built from callables
by successive constructor calls get strictly increasing identities, each
greater than the counter before the first call and so than every identity
given out earlier; on handlers that have an identity `operator==` holds
exactly when the identities are equal, `operator!=` is its negation and
`operator<` is the order of the identities. A `Handler()` built from no
callable gets no identity and leaves the counter as it is. -/
theorem handler_identity_order (c : Int) (fss : List (List Callable))
    (hne : ∀ fs ∈ fss, fs ≠ []) (hc : c + fss.length ≤ INT_MAX) :
    (∃ hs, Handler.construct_all c fss = Except.ok (c + fss.length, hs)
      ∧ hs.map (fun h => h.handler_) = fss
      ∧ hs.Pairwise (fun a b => ∃ x y, a.handler_id_ = some x ∧ b.handler_id_ = some y ∧ x < y)
      ∧ ∀ h ∈ hs, ∃ x, h.handler_id_ = some x ∧ c < x ∧ x ≤ c + fss.length)
    ∧ (∀ (a b : Handler) (x y : Int), a.handler_id_ = some x → b.handler_id_ = some y →
        Handler.operator_eq a b = Except.ok (decide (x = y))
        ∧ Handler.operator_ne a b = Except.ok (!decide (x = y))
        ∧ Handler.operator_lt a b = Except.ok (decide (x < y)))
    ∧ Handler.construct c [] = Except.ok (c, ⟨[], none⟩) := by
  refine ⟨construct_all_spec c fss hne hc, fun a b x y ha hb => ?_, rfl⟩
  rcases lt_trichotomy x y with h | h | h
  · have h2 : ¬ y < x := by omega
    have h3 : x ≠ y := by omega
    simp [Handler.operator_eq, Handler.operator_ne, Handler.operator_lt, ha, hb, h, h2, h3]
  · subst h
    simp [Handler.operator_eq, Handler.operator_ne, Handler.operator_lt, ha, hb]
  · have h2 : ¬ x < y := by omega
    have h3 : x ≠ y := by omega
    simp [Handler.operator_eq, Handler.operator_ne, Handler.operator_lt, ha, hb, h, h2, h3]

/-- C18, at three constructor calls with callables from the counter's initial
value 0: the identities are 1, 2 and 3. -/
theorem handler_identity_order_witness :
    Handler.construct_all 0 [[7], [8, 9], [3]]
        = Except.ok (3, [⟨[7], some 1⟩, ⟨[8, 9], some 2⟩, ⟨[3], some 3⟩])
    ∧ ∃ hs, Handler.construct_all 0 [[7], [8, 9], [3]]
        = Except.ok ((0 : Int) + ([[7], [8, 9], [3]] : List (List Callable)).length, hs)
      ∧ hs.map (fun h => h.handler_) = [[7], [8, 9], [3]]
      ∧ hs.Pairwise (fun a b => ∃ x y, a.handler_id_ = some x ∧ b.handler_id_ = some y ∧ x < y)
      ∧ ∀ h ∈ hs, ∃ x, h.handler_id_ = some x ∧ 0 < x
        ∧ x ≤ (0 : Int) + ([[7], [8, 9], [3]] : List (List Callable)).length :=
  ⟨rfl, (handler_identity_order 0 [[7], [8, 9], [3]] (by decide) (by decide)).1⟩

/-! ### Assertions, the leading slash, header values and the character tables -/

/-- C21, at the input `"P /"`: after `"P "` the parser is in the URI state
with the method still undetermined, and at the next byte the assertion
`request.method != RequestMethod::UNDETERMINED` fails. -/
theorem assertion_at_req_uri_fails (m : RequestMethod) (v : HttpVersion) :
    feed RequestParser.init (Request.fresh m v) "P ".toList
      = Except.ok ([in_progress, in_progress], ⟨req_uri, uri_start⟩,
          Request.fresh RequestMethod.UNDETERMINED v)
    ∧ RequestParser.consume ⟨req_uri, uri_start⟩
        (Request.fresh RequestMethod.UNDETERMINED v) '/'
      = Except.error Fault.assertion_failed
    ∧ feed RequestParser.init (Request.fresh m v) "P /".toList
      = Except.error Fault.assertion_failed :=
  ⟨rfl, rfl, rfl⟩

/-- C22, at the inputs `"http://h/p"` and `"http://h:80/p"`: every byte is in
progress and the URI state ends as abs_path, but the `/` that ends the host
or the port is not stored, so abs_path is `"p"`; for the path-only input
`"/p"` it is `"/p"`. -/
theorem absolute_uri_loses_leading_slash (s : ParserState) :
    feed_uri ⟨s, uri_start⟩ Uri.empty "http://h/p".toList
      = (List.replicate 10 in_progress, ⟨s, uri_abs_path⟩,
          { scheme := "http".toList, host := "h".toList, port := [], abs_path := "p".toList,
            query := [], fragment := [] })
    ∧ feed_uri ⟨s, uri_start⟩ Uri.empty "http://h:80/p".toList
      = (List.replicate 13 in_progress, ⟨s, uri_abs_path⟩,
          { scheme := "http".toList, host := "h".toList, port := "80".toList,
            abs_path := "p".toList, query := [], fragment := [] })
    ∧ feed_uri ⟨s, uri_start⟩ Uri.empty "/p".toList
      = (List.replicate 2 in_progress, ⟨s, uri_abs_path⟩,
          { scheme := [], host := [], port := [], abs_path := "/p".toList,
            query := [], fragment := [] }) :=
  ⟨rfl, rfl, rfl⟩

theorem is_uri_unreserved_of_is_alpha {c : Char} (h : is_alpha c = true) :
    is_uri_unreserved c = true := by
  rw [← Char.ofNat_toNat c]
  simp only [is_alpha, Bool.or_eq_true, decide_eq_true_eq] at h
  generalize c.toNat = n at h
  rcases h with ⟨h1, h2⟩ | ⟨h1, h2⟩ <;> interval_cases n <;> decide

theorem is_uri_unreserved_of_is_digit {c : Char} (h : is_digit c = true) :
    is_uri_unreserved c = true := by
  rw [← Char.ofNat_toNat c]
  simp only [is_digit, decide_eq_true_eq] at h
  generalize c.toNat = n at h
  obtain ⟨h1, h2⟩ := h
  interval_cases n <;> decide

theorem uri_charset_table :
    ∀ x ∈ uri_charset,
      x = Char.ofNat 0 ∨ is_alpha x = true ∨ is_digit x = true ∨ x ∈ uri_marks := by
  decide

theorem unreserved_charset_table :
    ∀ x ∈ unreserved_charset,
      x = Char.ofNat 0 ∨ is_alpha x = true ∨ is_digit x = true ∨ x ∈ unreserved_marks := by
  decide

theorem uri_marks_table : ∀ x ∈ uri_marks, is_uri x = true := by decide

theorem unreserved_marks_table : ∀ x ∈ unreserved_marks, is_uri_unreserved x = true := by
  decide

/-- C24, at the byte NUL: both `is_uri` and `is_uri_unreserved` accept it,
because the loops run to `std::end` of the arrays and so over their
terminating NUL. Apart from NUL the two tests accept the characters the claim
lists and no other. -/
theorem nul_is_accepted (c : Char) :
    is_uri (Char.ofNat 0) = true
    ∧ is_uri_unreserved (Char.ofNat 0) = true
    ∧ (is_uri c = true ↔
        c = Char.ofNat 0 ∨ is_alpha c = true ∨ is_digit c = true ∨ c ∈ uri_marks)
    ∧ (is_uri_unreserved c = true ↔
        c = Char.ofNat 0 ∨ is_alpha c = true ∨ is_digit c = true ∨ c ∈ unreserved_marks) := by
  refine ⟨by decide, by decide, ⟨fun h => ?_, fun h => ?_⟩, ⟨fun h => ?_, fun h => ?_⟩⟩
  · apply uri_charset_table
    simp only [is_uri, List.any_eq_true, beq_iff_eq] at h
    obtain ⟨x, hx, rfl⟩ := h
    exact hx
  · rcases h with rfl | h | h | h
    · decide
    · exact is_uri_of_is_alpha h
    · exact is_uri_of_is_digit h
    · exact uri_marks_table c h
  · apply unreserved_charset_table
    simp only [is_uri_unreserved, List.any_eq_true, beq_iff_eq] at h
    obtain ⟨x, hx, rfl⟩ := h
    exact hx
  · rcases h with rfl | h | h | h
    · decide
    · exact is_uri_unreserved_of_is_alpha h
    · exact is_uri_unreserved_of_is_digit h
    · exact unreserved_marks_table c h

theorem values_without_lws_append {hs : List Header} (h : values_without_lws hs)
    (name : List Char) : values_without_lws (hs ++ [⟨name, []⟩]) := by
  intro x hx
  rcases List.mem_append.mp hx with hx | hx
  · exact h x hx
  · rw [List.mem_singleton.mp hx]
    exact ⟨by simp, by simp⟩

theorem values_without_lws_modify_back {hs : List Header} (h : values_without_lws hs)
    (f : Header → Header)
    (hf : ∀ x : Header, (' ' ∉ x.value ∧ '\t' ∉ x.value) →
      ' ' ∉ (f x).value ∧ '\t' ∉ (f x).value) :
    values_without_lws (modify_back f hs) := by
  rcases List.eq_nil_or_concat hs with rfl | ⟨ys, y, rfl⟩
  · exact h
  · rw [List.concat_eq_append] at h ⊢
    rw [modify_back_append_singleton]
    intro x hx
    rcases List.mem_append.mp hx with hx | hx
    · exact h x (List.mem_append_left _ hx)
    · rw [List.mem_singleton.mp hx]
      exact hf y (h y (List.mem_append_right _ (List.mem_singleton.mpr rfl)))

theorem values_without_lws_name {hs : List Header} (h : values_without_lws hs) (c : Char) :
    values_without_lws (modify_back (fun x => { x with name := x.name ++ [c] }) hs) :=
  values_without_lws_modify_back h _ (fun _ hx => hx)

theorem values_without_lws_value {hs : List Header} (h : values_without_lws hs) (c : Char)
    (hc : (is_sp c || is_ht c) = false) :
    values_without_lws (modify_back (fun x => { x with value := x.value ++ [c] }) hs) := by
  refine values_without_lws_modify_back h _ (fun x hx => ?_)
  simp only [Bool.or_eq_false_iff, is_sp, is_ht, beq_eq_false_iff_ne] at hc
  simp only [List.mem_append, List.mem_singleton, not_or]
  exact ⟨⟨hx.1, fun e => hc.1 e.symm⟩, ⟨hx.2, fun e => hc.2 e.symm⟩⟩

theorem consume_values_without_lws (p p2 : RequestParser) (r r2 : Request) (c : Char)
    (s : ParseStatus) (h : RequestParser.consume p r c = Except.ok (s, p2, r2))
    (hc : values_without_lws r.headers) : values_without_lws r2.headers := by
  obtain ⟨st, us⟩ := p
  obtain ⟨m, v, u, hs⟩ := r
  cases st
  case req_uri =>
    simp only [RequestParser.consume] at h
    split_ifs at h with h1 h2 h3
    · generalize RequestParser.consume_uri ⟨req_uri, us⟩ u c = step at h
      obtain ⟨s1, p1, u1⟩ := step
      cases h
      exact hc
    · cases hd : RequestParser.uri_decode u with
      | none => simp [hd] at h
      | some u2 =>
        simp only [hd] at h
        cases h
        exact hc
    · cases h
      exact hc
  case req_http_minor =>
    simp only [RequestParser.consume] at h
    obtain ⟨v2, hv⟩ := set_version_fields m v u hs 1 (c.toNat - 48)
    rw [hv] at h
    split_ifs at h <;> cases h <;> exact hc
  case req_field_value =>
    simp only [RequestParser.consume, RequestParser.build_header_value] at h
    split_ifs at h with h1 h2 h3 h4
    all_goals first
      | (cases h; exact hc)
      | (cases h; exact values_without_lws_value hc c (by simpa using h1))
  all_goals
    simp only [RequestParser.consume, RequestParser.expect, start_header_eq,
      RequestParser.case_req_field_name, RequestParser.build_header_name] at h
    split_ifs at h <;> first
      | (cases h; exact hc)
      | (cases h; exact values_without_lws_append hc _)
      | (cases h; exact values_without_lws_name hc c)

theorem feed_values_without_lws (p p2 : RequestParser) (r r2 : Request) (xs : List Char)
    (ss : List ParseStatus) (h : feed p r xs = Except.ok (ss, p2, r2))
    (hc : values_without_lws r.headers) : values_without_lws r2.headers := by
  induction xs generalizing p r ss with
  | nil =>
    simp only [feed, Except.ok.injEq, Prod.mk.injEq] at h
    obtain ⟨-, -, rfl⟩ := h
    exact hc
  | cons c cs ih =>
    simp only [feed] at h
    cases hstep : RequestParser.consume p r c with
    | error e => simp [hstep] at h
    | ok step =>
      obtain ⟨s1, p1, r1⟩ := step
      simp only [hstep] at h
      cases hrest : feed p1 r1 cs with
      | error e => simp [hrest] at h
      | ok rest =>
        obtain ⟨ss1, p3, r3⟩ := rest
        simp only [hrest, Except.ok.injEq, Prod.mk.injEq] at h
        obtain ⟨-, rfl, rfl⟩ := h
        exact ih p1 r1 ss1 hrest (consume_values_without_lws p p1 r r1 c s1 hstep hc)

/-- C23: in every run from a fresh parser and a fresh request no header value
holds a space or a horizontal tab; and while a header value is being read,
the value bytes fed are appended to it with every space and tab among them
left out, whether leading, interior or trailing. -/
theorem header_values_hold_no_lws :
    (∀ (m : RequestMethod) (v : HttpVersion) (xs : List Char) (ss : List ParseStatus)
        (p : RequestParser) (r : Request),
        feed RequestParser.init (Request.fresh m v) xs = Except.ok (ss, p, r) →
        ∀ h ∈ r.headers, ' ' ∉ h.value ∧ '\t' ∉ h.value)
    ∧ (∀ (us : UriState) (m : RequestMethod) (v : HttpVersion) (u : Uri) (hs : List Header)
        (name value xs : List Char), (∀ c ∈ xs, is_value_byte c = true) →
        feed ⟨req_field_value, us⟩ ⟨m, v, u, hs ++ [⟨name, value⟩]⟩ xs
          = Except.ok (List.replicate xs.length in_progress, ⟨req_field_value, us⟩,
              ⟨m, v, u, hs ++ [⟨name, value ++ strip_lws xs⟩]⟩)) := by
  refine ⟨fun m v xs ss p r h => ?_, fun us m v u hs name value xs hxs => ?_⟩
  · refine feed_values_without_lws _ p _ r xs ss h ?_
    intro x hx
    simp [Request.fresh] at hx
  · exact runs_field_value us m v u hs name value xs hxs

/-- C23, at a header line whose value has leading, interior and trailing
blanks. -/
theorem header_values_hold_no_lws_witness :
    feed RequestParser.init (Request.fresh RequestMethod.GET HttpVersion.one_one)
        "GET / HTTP/1.1\r\nA:  b c\t \r\n".toList
      = Except.ok (List.replicate 27 in_progress, ⟨req_header_lws, uri_abs_path⟩,
          ⟨RequestMethod.GET, HttpVersion.one_one, { Uri.empty with abs_path := "/".toList },
            [⟨"A".toList, "bc".toList⟩]⟩)
    ∧ ∀ h ∈ ([⟨"A".toList, "bc".toList⟩] : List Header), ' ' ∉ h.value ∧ '\t' ∉ h.value :=
  ⟨rfl,
    header_values_hold_no_lws.1 RequestMethod.GET HttpVersion.one_one
      "GET / HTTP/1.1\r\nA:  b c\t \r\n".toList (List.replicate 27 in_progress)
      ⟨req_header_lws, uri_abs_path⟩
      ⟨RequestMethod.GET, HttpVersion.one_one, { Uri.empty with abs_path := "/".toList },
        [⟨"A".toList, "bc".toList⟩]⟩ rfl⟩

end Theros
